import Mathlib

/-!
Shallow embedding of the trajectory-analysis core of `HistDataMD`
(`src/src/hist/histdatamd.cpp`) from the Agate repository.

C++ `std::vector<double>` series are embedded as `List ℚ`; `double`
arithmetic is embedded as exact rational arithmetic.  Out-of-range
`operator[]` writes (undefined behaviour in C++) are embedded as no-ops
(`List.set` semantics); the claims below are only about executions that
stay in bounds.  Unsigned C++ loop counters are embedded as `ℕ`.
-/

/-- `v[i]` read of a `std::vector<double>`: defaulting read at index `i`. -/
def lget (l : List ℚ) (i : ℕ) : ℚ := l.getD i 0

/-- `std::vector<double>::resize(n)`: keep the first `n` entries, pad with
zeros (value initialisation) when growing. -/
def lresize (l : List ℚ) (n : ℕ) : List ℚ :=
  if n ≤ l.length then l.take n else l ++ List.replicate (n - l.length) 0

/-- The MD time-series store: the fields of `HistDataMD` (plus the inherited
`HistData` fields used by the merge/interpolation code).  `velocities` is
flat, laid out as `time * (3*natom) + atom*3 + coordinate`, exactly as
`_velocities` in the source. -/
structure HistDataMD where
  natom : ℕ
  ntime : ℕ
  ntimeAvail : ℕ
  time : List ℚ
  ekin : List ℚ
  velocities : List ℚ
  temperature : List ℚ
  pressure : List ℚ
  entropy : List ℚ
  typat : List ℕ
  znucl : List ℕ
deriving Repr, DecidableEq

/-- `HistDataMD::getVel` (histdatamd.cpp:167): bound check `time > _ntime`,
then the pointer to the `3*_natom` velocity components of frame `time`,
embedded as the corresponding slice. -/
def HistDataMD.getVel (h : HistDataMD) (time : ℕ) : Except String (List ℚ) :=
  if time > h.ntime then
    .error ("Out of range for velocities " ++ toString time ++ "/" ++ toString h.ntime)
  else
    .ok ((h.velocities.drop (time * 3 * h.natom)).take (3 * h.natom))

/-- `HistDataMD::getEkin` (histdatamd.cpp:175). -/
def HistDataMD.getEkin (h : HistDataMD) (time : ℕ) : Except String ℚ :=
  if time > h.ntime then
    .error ("Out of range for ekin " ++ toString time ++ "/" ++ toString h.ntime)
  else
    .ok (lget h.ekin time)

/-- `HistDataMD::getTemperature` (histdatamd.cpp:183). -/
def HistDataMD.getTemperature (h : HistDataMD) (time : ℕ) : Except String ℚ :=
  if time > h.ntime then
    .error ("Out of range for temperature" ++ toString time ++ "/" ++ toString h.ntime)
  else
    .ok (lget h.temperature time)

/-- `HistDataMD::getPressure` (histdatamd.cpp:191). -/
def HistDataMD.getPressure (h : HistDataMD) (time : ℕ) : Except String ℚ :=
  if time > h.ntime then
    .error ("Out of range for pressure" ++ toString time ++ "/" ++ toString h.ntime)
  else
    .ok (lget h.pressure time)

/-- Modelled from the spec: `utils::mean` (base utility, not under `src/`) —
the arithmetic mean of a range of values. -/
def lmean (l : List ℚ) : ℚ := l.sum / l.length

/-- Modelled from the spec: `HistData::checkTimes` (base class, not under
`src/`) validates that the frame window satisfies `tbegin < tend ≤ ntime`. -/
def checkTimes (ntime tbegin tend : ℕ) : Bool :=
  decide (tbegin < tend) && decide (tend ≤ ntime)

/-- Modelled from the spec: `HistData::operator+=` (base class, not under
`src/`) concatenates the base-class series and sets the frame count to the
sum of both segments' previously filled frame counts. -/
def histDataAppendBase (a b : HistDataMD) : HistDataMD :=
  { a with ntime := a.ntime + b.ntime, time := a.time ++ b.time }

/-- `std::copy(src.begin(), src.end(), dst.begin()+offset)`: the first `i`
elements of `src` written into `dst` starting at `offset`. -/
def copyIntoAux (dst src : List ℚ) (offset : ℕ) : ℕ → List ℚ
  | 0 => dst
  | i + 1 => (copyIntoAux dst src offset i).set (offset + i) (lget src i)

/-- `std::copy` of all of `src` into `dst` at `offset`
(histdatamd.cpp:237,251,283,288,303). -/
def copyInto (dst src : List ℚ) (offset : ℕ) : List ℚ :=
  copyIntoAux dst src offset src.length

/-- Innermost loop of the permuted velocity copy (histdatamd.cpp:294-296):
for `coord` up to the given bound, writes
`dst[start + itime*3*natom + iatom*3 + coord] = src[itime*3*natom + order[iatom]*3 + coord]`. -/
def permCopyCoord (src : List ℚ) (start natom itime iatom : ℕ) (order : List ℕ)
    (dst : List ℚ) : ℕ → List ℚ
  | 0 => dst
  | c + 1 =>
      (permCopyCoord src start natom itime iatom order dst c).set
        (start + itime * 3 * natom + iatom * 3 + c)
        (lget src (itime * 3 * natom + (order.getD iatom 0) * 3 + c))

/-- Middle loop of the permuted velocity copy (histdatamd.cpp:293). -/
def permCopyAtom (src : List ℚ) (start natom itime : ℕ) (order : List ℕ)
    (dst : List ℚ) : ℕ → List ℚ
  | 0 => dst
  | ia + 1 =>
      permCopyCoord src start natom itime ia order
        (permCopyAtom src start natom itime order dst ia) 3

/-- Outer loop of the permuted velocity copy (histdatamd.cpp:292). -/
def permCopyTime (src : List ℚ) (start natom : ℕ) (order : List ℕ)
    (dst : List ℚ) : ℕ → List ℚ
  | 0 => dst
  | it + 1 =>
      permCopyAtom src start natom it order
        (permCopyTime src start natom order dst it) natom

/-- The permuted velocity copy of `HistDataMD::operator+=`
(histdatamd.cpp:290-299): the appended segment's velocities written through
the atom permutation `order`, frame by frame. -/
def permCopyVel (dst src : List ℚ) (start natom ntimeB : ℕ) (order : List ℕ) : List ℚ :=
  permCopyTime src start natom order dst ntimeB

/-- The timestep-consistency check of `HistDataMD::operator+=`
(histdatamd.cpp:219-226): with both segments holding at least two frames,
an absolute mismatch of the two frame spacings beyond `1e-6` triggers a
non-fatal warning. -/
def mergeDtWarning (a b : HistDataMD) : Prop :=
  1 < a.ntime ∧ 1 < b.ntime ∧
    1/1000000 < |lget a.time 1 - lget a.time 0 - (lget b.time 1 - lget b.time 0)|

instance (a b : HistDataMD) : Decidable (mergeDtWarning a b) := by
  unfold mergeDtWarning; infer_instance

/-- The thermal-consistency check of `HistDataMD::operator+=`
(histdatamd.cpp:239-248): mean temperatures differing by more than 50%
relative to the base segment's mean trigger a non-fatal warning. -/
def mergeTempWarning (a b : HistDataMD) : Prop :=
  1/2 < |lmean a.temperature - lmean b.temperature| / lmean a.temperature

instance (a b : HistDataMD) : Decidable (mergeTempWarning a b) := by
  unfold mergeTempWarning; infer_instance

/-- The pressure-consistency check of `HistDataMD::operator+=`
(histdatamd.cpp:253-262). -/
def mergePressWarning (a b : HistDataMD) : Prop :=
  1/2 < |lmean a.pressure - lmean b.pressure| / lmean a.pressure

instance (a b : HistDataMD) : Decidable (mergePressWarning a b) := by
  unfold mergePressWarning; infer_instance

/-- The non-fatal consistency warnings printed by `HistDataMD::operator+=`,
in source order. -/
def mergeWarnings (a b : HistDataMD) : List String :=
  (if mergeDtWarning a b then
      ["dtion are different !!! BE VERY CAREFULL FOR ANALYSIS !!!"] else []) ++
  (if mergeTempWarning a b then
      ["Temperatures seem very different (+50%) !!! BE VERY CAREFULL FOR ANALYSIS !!!"] else []) ++
  (if mergePressWarning a b then
      ["Pressures seem very different (+50%) !!! BE VERY CAREFULL FOR ANALYSIS !!!"] else [])

/-- The `reorder` flag of `HistDataMD::operator+=` (histdatamd.cpp:264-280):
atom reconciliation was requested (`_tryToMap`) and the computed permutation
is not the identity. -/
def reorderFlag (tryToMap : Bool) (order : List ℕ) : Bool :=
  tryToMap && (List.range order.length).any (fun i => order.getD i 0 != i)

/-- `HistDataMD::operator+=(HistDataMD&)` (histdatamd.cpp:217-306), the merge
of a base MD store with an appended MD store.  The structural-matching
permutation `order` (`HistData::reorder`, an external capability per the
spec) is a parameter.  Returns the merged store together with the emitted
consistency warnings.  Note the final copy (histdatamd.cpp:302-303): the
entropy series is resized but `hist._ekin` is copied into `_ekin` a second
time; `hist._entropy` is never read. -/
def histDataMDAppend (a b : HistDataMD) (tryToMap : Bool) (order : List ℕ) :
    HistDataMD × List String :=
  let prevNtime := a.temperature.length
  let base := if prevNtime = a.ntime then histDataAppendBase a b else a
  let ntimeNew := base.ntime
  let dovel0 := xor a.velocities.isEmpty b.velocities.isEmpty
  let velA := if dovel0 && a.velocities.isEmpty then
      List.replicate (3 * a.natom * prevNtime) 0 else a.velocities
  let velB := if dovel0 && b.velocities.isEmpty then
      List.replicate (3 * a.natom * b.ntimeAvail) 0 else b.velocities
  let dovel := !(velA.isEmpty || velB.isEmpty)
  let ekin1 := copyInto (lresize a.ekin ntimeNew) b.ekin prevNtime
  let temperature1 := copyInto (lresize a.temperature ntimeNew) b.temperature prevNtime
  let reorder := reorderFlag tryToMap order
  let pressure1 := copyInto (lresize a.pressure ntimeNew) b.pressure prevNtime
  let velocities1 :=
    if dovel then
      let v := lresize velA (ntimeNew * a.natom * 3)
      if !reorder then copyInto v velB (prevNtime * a.natom * 3)
      else permCopyVel v velB (prevNtime * a.natom * 3) a.natom b.ntime order
    else velA
  let entropy1 := lresize a.entropy ntimeNew
  let ekin2 := copyInto ekin1 b.ekin prevNtime
  ({ base with
      ekin := ekin2
      temperature := temperature1
      pressure := pressure1
      velocities := velocities1
      entropy := entropy1 },
   mergeWarnings a b)

/-- One write of the interpolation inner loop body (histdatamd.cpp:806-818)
for a series with `b` components per frame: for each component `d < n`,
`arr[b*currentTime + d] = gamma*last[d] + beta*arr[b*firstStep + d]`,
reading the `firstStep` frame live as the source does. -/
def lwriteBlockAux (b ct firstStep : ℕ) (gamma beta : ℚ) (lastBlock arr : List ℚ) :
    ℕ → List ℚ
  | 0 => arr
  | d + 1 =>
      let prev := lwriteBlockAux b ct firstStep gamma beta lastBlock arr d
      prev.set (b * ct + d) (gamma * lget lastBlock d + beta * lget prev (b * firstStep + d))

/-- Full write of one synthetic frame (all `b` components). -/
def lwriteBlock (b ct firstStep : ℕ) (gamma beta : ℚ) (lastBlock arr : List ℚ) : List ℚ :=
  lwriteBlockAux b ct firstStep gamma beta lastBlock arr b

/-- The `tinter` loop of `HistDataMD::interpolate` (histdatamd.cpp:802-820):
`k` remaining iterations of `ninter` total, so the current iteration has
`tinter = ninter - k`, `beta = tinter*alpha`, `gamma = 1 - beta`; writes the
frame at `currentTime` and decrements `currentTime`. -/
def interpInner (b ninter : ℕ) (alpha : ℚ) (lastBlock : List ℚ) (firstStep : ℕ) :
    ℕ → ℕ → List ℚ → List ℚ × ℕ
  | 0, ct, arr => (arr, ct)
  | k + 1, ct, arr =>
      let tinter := ninter - (k + 1)
      let beta := (tinter : ℚ) * alpha
      let gamma := 1 - beta
      interpInner b ninter alpha lastBlock firstStep k (ct - 1)
        (lwriteBlock b ct firstStep gamma beta lastBlock arr)

/-- The `lastStep` loop of `HistDataMD::interpolate` (histdatamd.cpp:794-822),
counting `lastStep` down to 1: snapshots the `lastStep` frame (as
`velocitiesLast`/`ekinLast`/… do), runs the `tinter` loop, and on
`removeDuplica` re-increments `currentTime` to overwrite the duplicated
boundary frame. -/
def interpLoop (b ninter : ℕ) (alpha : ℚ) (removeDuplica : Bool) :
    ℕ → ℕ → List ℚ → List ℚ
  | 0, _, arr => arr
  | l + 1, ct, arr =>
      let lastBlock := (List.range b).map (fun d => lget arr (b * (l + 1) + d))
      let res := interpInner b ninter alpha lastBlock l ninter ct arr
      interpLoop b ninter alpha removeDuplica l
        (if removeDuplica then res.2 + 1 else res.2) res.1

/-- Interpolation of one stored series with `b` components per frame: the
series is first resized to `resizeLen` (the source resizes each series
before the loop, histdatamd.cpp:786-790), then the frame loop runs from
`currentTime = newNTime - 1` downwards. -/
def mdInterpSeries (b resizeLen ninter : ℕ) (alpha : ℚ) (removeDuplica : Bool)
    (ntime newNTime : ℕ) (x : List ℚ) : List ℚ :=
  interpLoop b ninter alpha removeDuplica (ntime - 1) (newNTime - 1) (lresize x resizeLen)

/-- Modelled from the spec: the final `HistData::interpolate` call (base
class, not under `src/`) makes the produced frame count the store's frame
count. -/
def histDataInterpolateBase (h : HistDataMD) (newNTime : ℕ) : HistDataMD :=
  { h with ntime := newNTime, ntimeAvail := newNTime }

/-- `HistDataMD::interpolate` (histdatamd.cpp:777-824).  `newNTime` is
`ninter*(ntime-1)`, lowered by `ntime-2` when `|amplitude-1| < 1e-10`
(duplicate elision); the five MD series are resized exactly as the source
does — velocities to `3*natom*newNTime`, but kinetic energy to
`3*natom*newNTime`, temperature to `_xyz*newNTime = 3*newNTime` and
pressure to `_xyz*_xyz*newNTime = 9*newNTime` — and then filled by the
blending loop.  The source interleaves all five series in one loop over a
shared `currentTime`; the series and their counters evolve independently,
so each series is interpolated by the same loop here. -/
def HistDataMD.interpolate (h : HistDataMD) (ninter : ℕ) (amplitude : ℚ) : HistDataMD :=
  let removeDuplica := |amplitude - 1| < 1/10000000000
  let newNTimeZ : ℤ :=
    (ninter : ℤ) * ((h.ntime : ℤ) - 1) - (if removeDuplica then (h.ntime : ℤ) - 2 else 0)
  let newNTime := newNTimeZ.toNat
  let natom3 := 3 * h.natom
  let alpha := amplitude / ((ninter : ℚ) - 1)
  histDataInterpolateBase
    { h with
      velocities :=
        mdInterpSeries natom3 (natom3 * newNTime) ninter alpha removeDuplica h.ntime newNTime h.velocities
      ekin :=
        mdInterpSeries 1 (natom3 * newNTime) ninter alpha removeDuplica h.ntime newNTime h.ekin
      temperature :=
        mdInterpSeries 1 (3 * newNTime) ninter alpha removeDuplica h.ntime newNTime h.temperature
      pressure :=
        mdInterpSeries 1 (9 * newNTime) ninter alpha removeDuplica h.ntime newNTime h.pressure
      entropy :=
        mdInterpSeries 1 newNTime ninter alpha removeDuplica h.ntime newNTime h.entropy }
    newNTime

/-- Innermost accumulation of `HistDataMD::getVACF` (histdatamd.cpp:670-675):
for each Cartesian channel `c` of atom `iatom` at lag `itau`, adds
`fullvacf[itau*3*natom + iatom*3 + c]` both to the all-species slot `0` and
to the slot of the atom's species `typat[iatom]`. -/
def vacfTmpCoord (fullvacf : List ℚ) (natom itau iatom : ℕ) (typat : List ℕ)
    (acc : List ℚ) : ℕ → List ℚ
  | 0 => acc
  | c + 1 =>
      let acc1 := vacfTmpCoord fullvacf natom itau iatom typat acc c
      let v := lget fullvacf (itau * 3 * natom + iatom * 3 + c)
      let acc2 := acc1.set 0 (lget acc1 0 + v)
      acc2.set (typat.getD iatom 0) (lget acc2 (typat.getD iatom 0) + v)

/-- Atom loop of the per-lag VACF accumulation (histdatamd.cpp:670). -/
def vacfTmpAtom (fullvacf : List ℚ) (natom itau : ℕ) (typat : List ℕ)
    (acc : List ℚ) : ℕ → List ℚ
  | 0 => acc
  | ia + 1 =>
      vacfTmpCoord fullvacf natom itau ia typat
        (vacfTmpAtom fullvacf natom itau typat acc ia) 3

/-- `vacf_tmp[itau]` of `HistDataMD::getVACF` (histdatamd.cpp:665-676): the
per-species accumulators for lag `itau`, starting from `znucl.size()+1`
zeroed slots.  The raw autocorrelation `fullvacf` is the output of
`HistData::acf` (base class, not under `src/`), taken as an argument. -/
def vacfTmp (fullvacf : List ℚ) (natom : ℕ) (typat : List ℕ) (nsp itau : ℕ) : List ℚ :=
  vacfTmpAtom fullvacf natom itau typat (List.replicate (nsp + 1) 0) natom

/-- The species population count of `HistDataMD::getVACF`
(histdatamd.cpp:660-662): `++ntypat[_typat[iatom]]` for each atom. -/
def bumpCounts (typat : List ℕ) (acc : List ℕ) : ℕ → List ℕ
  | 0 => acc
  | ia + 1 =>
      let a1 := bumpCounts typat acc ia
      a1.set (typat.getD ia 0) (a1.getD (typat.getD ia 0) 0 + 1)

/-- `ntypat` of `HistDataMD::getVACF` (histdatamd.cpp:660-663): species
populations, with slot `0` overwritten by the total atom count. -/
def ntypatList (natom : ℕ) (typat : List ℕ) (nsp : ℕ) : List ℕ :=
  (bumpCounts typat (List.replicate (nsp + 1) 0) natom).set 0 natom

/-- The normalized per-species VACF value of `HistDataMD::getVACF`
(histdatamd.cpp:678-687): accumulator of species `ityp` at lag `itau`,
divided by `3*ntypat[ityp]` and scaled by `conversion2nm2ps2`.  The
conversion constant is built from `phys.hpp` constants (not under `src/`)
and is a parameter `conv` here. -/
def vacfSpecies (fullvacf : List ℚ) (natom : ℕ) (typat : List ℕ) (nsp : ℕ)
    (conv : ℚ) (ityp itau : ℕ) : ℚ :=
  lget (vacfTmp fullvacf natom typat nsp itau) ityp
    / (3 * (((ntypatList natom typat nsp).getD ityp 0 : ℕ) : ℚ)) * conv

/-- The trapezoidal accumulation of `norme` in
`HistDataMD::computeThermoFunctionHA` (histdatamd.cpp:917-919), over
`i < n` terms. -/
def normeAux (p : List ℚ) (domega : ℚ) : ℕ → ℚ
  | 0 => 0
  | i + 1 => normeAux p domega i + (lget p i + lget p (i + 1)) * (1/2) * domega

/-- `norme`: the midpoint-trapezoidal integral of the PDOS up to the cutoff
index `nmax` (histdatamd.cpp:917-919), i.e. `nmax - 1` trapezoid terms. -/
def pdosNorme (p : List ℚ) (nmax : ℕ) (domega : ℚ) : ℚ := normeAux p domega (nmax - 1)

/-- The in-place renormalization loop `pdos[i] /= norme` for `i < n`
(histdatamd.cpp:920-921). -/
def renormAux (p : List ℚ) (norme : ℚ) : ℕ → List ℚ
  | 0 => p
  | i + 1 =>
      let a := renormAux p norme i
      a.set i (lget a i / norme)

/-- The renormalized PDOS (histdatamd.cpp:916-921). -/
def pdosRenorm (p : List ℚ) (nmax : ℕ) (domega : ℚ) : List ℚ :=
  renormAux p (pdosNorme p nmax domega) nmax

/-- The cutoff index `nmax` (histdatamd.cpp:914): the full range `nfreq`
when no cutoff (`omegaMax < 0`), else `min(unsigned(omegaMax/domega), nfreq)`
(C-style truncation of the non-negative quotient). -/
def nmaxOf (omegaMax domega : ℚ) (nfreq : ℕ) : ℕ :=
  if omegaMax < 0 then nfreq else min (Int.toNat ⌊omegaMax / domega⌋) nfreq

/-- The `F`/`E`/`C`/`S` accumulation loop of
`HistDataMD::computeThermoFunctionHA` (histdatamd.cpp:930-943), over `i < n`
bins.  The `<cmath>` kernels `sinh`, `log`, `tanh` are parameters. -/
def fecsAux (sinhQ logQ tanhQ : ℚ → ℚ) (thzHa2eV domega invTwoKBT : ℚ)
    (p : List ℚ) : ℕ → ℚ × ℚ × ℚ × ℚ
  | 0 => (0, 0, 0, 0)
  | i + 1 =>
      let prev := fecsAux sinhQ logQ tanhQ thzHa2eV domega invTwoKBT p i
      let omega := thzHa2eV * ((i : ℚ) + 1/2) * domega
      let argument := omega * invTwoKBT
      let gwdw := (lget p i + lget p (i + 1)) * domega * (1/2)
      let sinharg := sinhQ argument
      let cotharg := 1 / tanhQ argument
      let log2sinharg := logQ (2 * sinharg)
      (prev.1 + log2sinharg * gwdw,
       prev.2.1 + omega * cotharg * gwdw,
       prev.2.2.1 + argument * argument / (sinharg * sinharg) * gwdw,
       prev.2.2.2 + (argument * cotharg - log2sinharg) * gwdw)

/-- `HistDataMD::computeThermoFunctionHA(std::vector<double>&, double, double)`
(histdatamd.cpp:904-949): frequency grid, cutoff, PDOS renormalization and
harmonic-oscillator integration.  The `<cmath>` kernels and the `phys.hpp`
constants (`atu2fs`, `THz2Ha*Ha2eV`, `kB/eV`; `phys.hpp` is not under
`src/`) are parameters. -/
def computeThermoFunctionHAInner (sinhQ logQ tanhQ : ℚ → ℚ)
    (atu2fs thzHa2eV kBeV : ℚ) (timeList pdos : List ℚ) (T omegaMax : ℚ) :
    ℚ × ℚ × ℚ × ℚ :=
  let nfreq := pdos.length
  let dtion := atu2fs * (1/1000) *
    (if 1 < timeList.length then lget timeList 1 - lget timeList 0 else 100)
  let domega := 1 / (2 * dtion * (nfreq : ℚ))
  let nmax := nmaxOf omegaMax domega nfreq
  let p := pdosRenorm pdos nmax domega
  let kBT := kBeV * T
  let invTwoKBT := (1/2) / kBT
  let r := fecsAux sinhQ logQ tanhQ thzHa2eV domega invTwoKBT p (nmax - 1)
  (r.1 * (3 * kBT), r.2.1 * (3 * (1/2)), r.2.2.1 * 3, r.2.2.2 * 3)

/-- `HistDataMD::computeThermoFunctionHA(unsigned, unsigned, double)`
(histdatamd.cpp:876-902).  `getPDOS` requires the external FFTW capability,
so its outcome is the parameter `pdosRes`.  On a window-check failure the
exception is annotated and re-thrown; on a PDOS failure the `catch` block
(histdatamd.cpp:891-893) annotates the exception with
"Unable to compute thermodynamics functions." but does not re-throw, so
`pdos` keeps its default empty value and execution falls through. -/
def computeThermoFunctionHAOuter (sinhQ logQ tanhQ : ℚ → ℚ)
    (atu2fs thzHa2eV kBeV : ℚ) (h : HistDataMD) (tbegin tend : ℕ)
    (omegaMax : ℚ) (pdosRes : Except String (List ℚ)) :
    Except String (ℚ × ℚ × ℚ × ℚ) :=
  if !(checkTimes h.ntime tbegin tend) then
    .error "Thermodynamics calculations aborted"
  else
    let pdos := match pdosRes with
      | .ok p => p
      | .error _ => []
    let T := lmean ((h.temperature.drop tbegin).take (tend - tbegin))
    .ok (computeThermoFunctionHAInner sinhQ logQ tanhQ atu2fs thzHa2eV kBeV
          h.time pdos T omegaMax)

/-- A one-frame store with a reserved (allocated but unfilled) second slot,
as left by an appender that reserved ahead (`ntimeAvail = 2 > ntime = 1`). -/
def c3Store : HistDataMD :=
  { natom := 1, ntime := 1, ntimeAvail := 2,
    time := [0, 0], ekin := [5, 0], velocities := [1, 2, 3, 0, 0, 0],
    temperature := [300, 0], pressure := [10, 0], entropy := [7, 0],
    typat := [1], znucl := [1] }

/-- A one-frame base segment (for the merge claims). -/
def c1Base : HistDataMD :=
  { natom := 1, ntime := 1, ntimeAvail := 1,
    time := [0], ekin := [1], velocities := [1, 2, 3],
    temperature := [300], pressure := [10], entropy := [7],
    typat := [1], znucl := [1] }

/-- A one-frame appended segment with a non-zero entropy value. -/
def c1Appended : HistDataMD :=
  { natom := 1, ntime := 1, ntimeAvail := 1,
    time := [1], ekin := [2], velocities := [4, 5, 6],
    temperature := [310], pressure := [11], entropy := [9],
    typat := [1], znucl := [1] }

/-- A one-frame store used for the thermodynamics-pipeline claim. -/
def c2Store : HistDataMD :=
  { natom := 1, ntime := 1, ntimeAvail := 1,
    time := [0], ekin := [1], velocities := [1, 2, 3],
    temperature := [300], pressure := [10], entropy := [0],
    typat := [1], znucl := [1] }

/-- A two-frame, one-atom store used for the interpolation length claim. -/
def c4Store : HistDataMD :=
  { natom := 1, ntime := 2, ntimeAvail := 2,
    time := [0, 1], ekin := [1, 2], velocities := [1, 2, 3, 4, 5, 6],
    temperature := [300, 310], pressure := [10, 11], entropy := [7, 9],
    typat := [1], znucl := [1] }

/-- A two-frame base segment with frame spacing `10`. -/
def c5Base : HistDataMD :=
  { natom := 1, ntime := 2, ntimeAvail := 2,
    time := [0, 10], ekin := [1, 1], velocities := [],
    temperature := [300, 300], pressure := [10, 10], entropy := [0, 0],
    typat := [1], znucl := [1] }

/-- A two-frame appended segment with frame spacing `10 + 5e-6`. -/
def c5Appended : HistDataMD :=
  { natom := 1, ntime := 2, ntimeAvail := 2,
    time := [0, 10 + 1/200000], ekin := [1, 1], velocities := [],
    temperature := [300, 300], pressure := [10, 10], entropy := [0, 0],
    typat := [1], znucl := [1] }

/-- A one-frame, two-atom base segment (for the reconciliation claim). -/
def c6Base : HistDataMD :=
  { natom := 2, ntime := 1, ntimeAvail := 1,
    time := [0], ekin := [1], velocities := [1, 2, 3, 4, 5, 6],
    temperature := [300], pressure := [10], entropy := [0],
    typat := [1, 1], znucl := [1] }

/-- A one-frame, two-atom appended segment with the atom order reversed. -/
def c6Appended : HistDataMD :=
  { natom := 2, ntime := 1, ntimeAvail := 1,
    time := [1], ekin := [1], velocities := [7, 8, 9, 10, 11, 12],
    temperature := [300], pressure := [10], entropy := [0],
    typat := [1, 1], znucl := [1] }

theorem lget_oob (l : List ℚ) (i : ℕ) (h : l.length ≤ i) : lget l i = 0 :=
  List.getD_eq_default _ _ h

theorem lget_set_self (l : List ℚ) (i : ℕ) (v : ℚ) (h : i < l.length) :
    lget (l.set i v) i = v := by
  simp [lget, List.getD_eq_getElem?_getD, List.getElem?_set, h]

theorem lget_set_ne (l : List ℚ) (i j : ℕ) (v : ℚ) (h : i ≠ j) :
    lget (l.set i v) j = lget l j := by
  simp [lget, List.getD_eq_getElem?_getD, List.getElem?_set, h]

theorem length_lresize (l : List ℚ) (n : ℕ) : (lresize l n).length = n := by
  unfold lresize
  split <;> simp <;> omega

theorem lget_lresize (l : List ℚ) (n i : ℕ) :
    lget (lresize l n) i = if i < n then lget l i else 0 := by
  by_cases hin : i < n
  · rw [if_pos hin]
    unfold lresize
    split
    · simp [lget, List.getD_eq_getElem?_getD, List.getElem?_take, hin]
    · by_cases hil : i < l.length
      · simp [lget, List.getD_eq_getElem?_getD, List.getElem?_append, hil]
      · rw [lget_oob l i (by omega)]
        by_cases hrep : i < l.length + (n - l.length)
        · simp [lget, List.getD_eq_getElem?_getD, List.getElem?_append,
            hil, List.getElem?_replicate, show i - l.length < n - l.length by omega]
        · exact lget_oob _ i (by simp; omega)
  · rw [if_neg hin]
    exact lget_oob _ i (by rw [length_lresize]; omega)

theorem length_copyIntoAux (dst src : List ℚ) (off : ℕ) :
    ∀ k, (copyIntoAux dst src off k).length = dst.length
  | 0 => rfl
  | k + 1 => by
      simp [copyIntoAux, length_copyIntoAux dst src off k]

theorem length_copyInto (dst src : List ℚ) (off : ℕ) :
    (copyInto dst src off).length = dst.length :=
  length_copyIntoAux dst src off src.length

theorem lget_copyIntoAux_low (dst src : List ℚ) (off : ℕ) :
    ∀ k j, j < off → lget (copyIntoAux dst src off k) j = lget dst j
  | 0, _, _ => rfl
  | k + 1, j, h => by
      rw [copyIntoAux, lget_set_ne _ _ _ _ (by omega),
        lget_copyIntoAux_low dst src off k j h]

theorem lget_copyIntoAux_high (dst src : List ℚ) (off : ℕ) :
    ∀ k j, off + k ≤ j → lget (copyIntoAux dst src off k) j = lget dst j
  | 0, _, _ => rfl
  | k + 1, j, h => by
      rw [copyIntoAux, lget_set_ne _ _ _ _ (by omega),
        lget_copyIntoAux_high dst src off k j (by omega)]

theorem lget_copyIntoAux_mid (dst src : List ℚ) (off : ℕ) :
    ∀ k i, i < k → off + i < dst.length →
      lget (copyIntoAux dst src off k) (off + i) = lget src i
  | 0, i, h, _ => absurd h (Nat.not_lt_zero i)
  | k + 1, i, h, hlen => by
      rcases Nat.lt_succ_iff_lt_or_eq.mp h with h' | rfl
      · rw [copyIntoAux, lget_set_ne _ _ _ _ (by omega),
          lget_copyIntoAux_mid dst src off k i h' hlen]
      · rw [copyIntoAux,
          lget_set_self _ _ _ (by rw [length_copyIntoAux]; exact hlen)]

theorem lget_copyInto_low (dst src : List ℚ) (off j : ℕ) (h : j < off) :
    lget (copyInto dst src off) j = lget dst j :=
  lget_copyIntoAux_low dst src off src.length j h

theorem lget_copyInto_high (dst src : List ℚ) (off j : ℕ) (h : off + src.length ≤ j) :
    lget (copyInto dst src off) j = lget dst j :=
  lget_copyIntoAux_high dst src off src.length j h

theorem lget_copyInto_mid (dst src : List ℚ) (off i : ℕ) (hi : i < src.length)
    (hlen : off + i < dst.length) :
    lget (copyInto dst src off) (off + i) = lget src i :=
  lget_copyIntoAux_mid dst src off src.length i hi hlen

theorem length_lwriteBlockAux (b ct fs : ℕ) (g be : ℚ) (lb arr : List ℚ) :
    ∀ n, (lwriteBlockAux b ct fs g be lb arr n).length = arr.length
  | 0 => rfl
  | n + 1 => by
      simp [lwriteBlockAux, length_lwriteBlockAux b ct fs g be lb arr n]

theorem length_lwriteBlock (b ct fs : ℕ) (g be : ℚ) (lb arr : List ℚ) :
    (lwriteBlock b ct fs g be lb arr).length = arr.length :=
  length_lwriteBlockAux b ct fs g be lb arr b

theorem interpInner_fst_length (b ninter : ℕ) (alpha : ℚ) (lb : List ℚ) (fs : ℕ) :
    ∀ k ct arr, (interpInner b ninter alpha lb fs k ct arr).1.length = arr.length
  | 0, _, _ => rfl
  | k + 1, ct, arr => by
      rw [interpInner, interpInner_fst_length b ninter alpha lb fs k,
        length_lwriteBlock]

theorem interpInner_snd (b ninter : ℕ) (alpha : ℚ) (lb : List ℚ) (fs : ℕ) :
    ∀ k ct arr, (interpInner b ninter alpha lb fs k ct arr).2 = ct - k
  | 0, ct, _ => (Nat.sub_zero ct).symm
  | k + 1, ct, arr => by
      rw [interpInner, interpInner_snd b ninter alpha lb fs k]
      omega

theorem interpLoop_length (b ninter : ℕ) (alpha : ℚ) (rd : Bool) :
    ∀ l ct arr, (interpLoop b ninter alpha rd l ct arr).length = arr.length
  | 0, _, _ => rfl
  | l + 1, ct, arr => by
      rw [interpLoop, interpLoop_length b ninter alpha rd l, interpInner_fst_length]

theorem mdInterpSeries_length (b resizeLen ninter : ℕ) (alpha : ℚ) (rd : Bool)
    (ntime newNTime : ℕ) (x : List ℚ) :
    (mdInterpSeries b resizeLen ninter alpha rd ntime newNTime x).length = resizeLen := by
  unfold mdInterpSeries
  rw [interpLoop_length, length_lresize]

/-- C1: evaluating the merge at a concrete base/appended pair.  Every series
except entropy is resized to the summed frame count and receives the
appended store's values at offset `prevNtime = 1`, but the entropy series —
although resized — never receives the appended entropy `9`: the final copy
(histdatamd.cpp:302-303) re-copies `hist._ekin` into `_ekin` instead, and
the appended entropy slot stays zero-filled. -/
theorem c1_merge_entropy_bug :
    (histDataMDAppend c1Base c1Appended false []).1.ntime = 2 ∧
    (histDataMDAppend c1Base c1Appended false []).1.ekin = [1, 2] ∧
    (histDataMDAppend c1Base c1Appended false []).1.temperature = [300, 310] ∧
    (histDataMDAppend c1Base c1Appended false []).1.pressure = [10, 11] ∧
    (histDataMDAppend c1Base c1Appended false []).1.velocities = [1, 2, 3, 4, 5, 6] ∧
    (histDataMDAppend c1Base c1Appended false []).1.entropy = [7, 0] ∧
    c1Appended.entropy = [9] ∧
    lget (histDataMDAppend c1Base c1Appended false []).1.entropy 1 ≠ lget c1Appended.entropy 0 := by
  decide

/-- C2: evaluating `computeThermoFunctionHA(unsigned,unsigned,double)` at a
valid window when the inner PDOS computation fails (here: the
capability-missing failure of `getPDOS`): the failure is not re-raised — the
function still returns a result, computed from the default empty PDOS. -/
theorem c2_pdos_failure_swallowed :
    (computeThermoFunctionHAOuter id id id 1 1 1 c2Store 0 1 (-1)
        (.error "FFTW3 is needed to compute the PDOS")).isOk = true := by
  rfl

/-- C4: evaluating `interpolate(ninter = 2, amplitude = 1)` on a concrete
two-frame one-atom store.  The new frame count is `2`, and the entropy and
velocity series get their invariant lengths (`2` and `3*natom*2 = 6`), but
the kinetic-energy series is resized to `3*natom*newNTime = 6`, the
temperature series to `_xyz*newNTime = 6` and the pressure series to
`_xyz*_xyz*newNTime = 18` (histdatamd.cpp:787-789), breaking the
equal-length invariant. -/
theorem c4_interpolate_length_bug :
    (c4Store.interpolate 2 1).ntime = 2 ∧
    (c4Store.interpolate 2 1).entropy.length = 2 ∧
    (c4Store.interpolate 2 1).velocities.length = 6 ∧
    (c4Store.interpolate 2 1).ekin.length = 6 ∧
    (c4Store.interpolate 2 1).temperature.length = 6 ∧
    (c4Store.interpolate 2 1).pressure.length = 18 ∧
    (c4Store.interpolate 2 1).ekin.length ≠ (c4Store.interpolate 2 1).ntime := by
  have hrd : |(1 : ℚ) - 1| < 1/10000000000 := by norm_num
  refine ⟨?_, ?_, ?_, ?_, ?_, ?_, ?_⟩ <;>
    simp [HistDataMD.interpolate, histDataInterpolateBase, mdInterpSeries_length,
      hrd, c4Store]

/-- C5, counterexample: two segments whose frame spacings are `10` and
`10 + 5e-6`.  The relative mismatch is `5e-7 ≤ 1e-6` (with respect to either
spacing), so the claim says no warning; but the source compares the
absolute difference `5e-6` against `1e-6` (histdatamd.cpp:222) and the
timestep warning is emitted. -/
theorem c5_dt_warning_counterexample :
    "dtion are different !!! BE VERY CAREFULL FOR ANALYSIS !!!" ∈
      (histDataMDAppend c5Base c5Appended false []).2 ∧
    ¬ (1/1000000 <
        |lget c5Base.time 1 - lget c5Base.time 0 -
          (lget c5Appended.time 1 - lget c5Appended.time 0)| /
        (lget c5Base.time 1 - lget c5Base.time 0)) ∧
    ¬ (1/1000000 <
        |lget c5Base.time 1 - lget c5Base.time 0 -
          (lget c5Appended.time 1 - lget c5Appended.time 0)| /
        (lget c5Appended.time 1 - lget c5Appended.time 0)) := by
  have habs : |(10 : ℚ) - 0 - (10 + 1/200000 - 0)| = 1/200000 := by
    rw [show (10 : ℚ) - 0 - (10 + 1/200000 - 0) = -(1/200000) by norm_num,
      abs_neg, abs_of_nonneg (by norm_num)]
  have hw : mergeDtWarning c5Base c5Appended := by
    refine ⟨by norm_num [c5Base], by norm_num [c5Appended], ?_⟩
    show (1 : ℚ)/1000000 < _
    simp only [c5Base, c5Appended, lget, List.getD_cons_succ, List.getD_cons_zero]
    rw [habs]
    norm_num
  refine ⟨?_, ?_, ?_⟩
  · show _ ∈ mergeWarnings c5Base c5Appended
    rw [mergeWarnings, if_pos hw]
    exact List.mem_append_left _ (List.mem_append_left _ (List.mem_singleton_self _))
  · simp only [c5Base, c5Appended, lget, List.getD_cons_succ, List.getD_cons_zero]
    rw [habs]
    norm_num
  · simp only [c5Base, c5Appended, lget, List.getD_cons_succ, List.getD_cons_zero]
    rw [habs]
    norm_num

/-- C3, counterexample: at frame index `1 = ntime` — outside the recorded
range `[0, ntime)` — every accessor still returns a value (the unfilled
buffer slot) instead of reporting a lookup failure, because the source
guards with `time > _ntime` rather than `time >= _ntime`. -/
theorem c3_accessor_bound_counterexample :
    c3Store.getEkin 1 = .ok 0 ∧ c3Store.getTemperature 1 = .ok 0 ∧
    c3Store.getPressure 1 = .ok 0 ∧ c3Store.getVel 1 = .ok [0, 0, 0] :=
  ⟨rfl, rfl, rfl, rfl⟩

/-- C3 (amended): the accessors report a lookup failure naming the offending
index exactly when the index is strictly greater than `ntime`; for every
index `≤ ntime` (hence in particular for every index inside the recorded
range) they return the stored buffer value, and — being pure functions of
the store — leave the store unmodified. -/
theorem c3_accessor_bounds (h : HistDataMD) (t : ℕ) :
    (h.ntime < t →
      h.getEkin t = .error ("Out of range for ekin " ++ toString t ++ "/" ++ toString h.ntime) ∧
      h.getTemperature t = .error ("Out of range for temperature" ++ toString t ++ "/" ++ toString h.ntime) ∧
      h.getPressure t = .error ("Out of range for pressure" ++ toString t ++ "/" ++ toString h.ntime) ∧
      h.getVel t = .error ("Out of range for velocities " ++ toString t ++ "/" ++ toString h.ntime)) ∧
    (t ≤ h.ntime →
      h.getEkin t = .ok (lget h.ekin t) ∧
      h.getTemperature t = .ok (lget h.temperature t) ∧
      h.getPressure t = .ok (lget h.pressure t) ∧
      h.getVel t = .ok ((h.velocities.drop (t * 3 * h.natom)).take (3 * h.natom))) := by
  constructor
  · intro hlt
    refine ⟨?_, ?_, ?_, ?_⟩ <;>
      simp [HistDataMD.getEkin, HistDataMD.getTemperature, HistDataMD.getPressure,
        HistDataMD.getVel, hlt]
  · intro hle
    have hng : ¬ h.ntime < t := Nat.not_lt.mpr hle
    refine ⟨?_, ?_, ?_, ?_⟩ <;>
      simp [HistDataMD.getEkin, HistDataMD.getTemperature, HistDataMD.getPressure,
        HistDataMD.getVel, hng]

/-- C3 witness: the amended theorem applied to `c3Store` at the in-range
index `0`. -/
theorem c3_accessor_bounds_witness :
    c3Store.getEkin 0 = .ok (lget c3Store.ekin 0) :=
  ((c3_accessor_bounds c3Store 0).2 (by decide)).1

/-- C5 (amended): the timestep-consistency warning of the merge is emitted
if and only if both segments have at least 2 frames and the ABSOLUTE
mismatch of the two frame spacings exceeds `1e-6` (the source compares
`abs(dt1-dt2)` itself against the tolerance, histdatamd.cpp:222); and the
merge result is produced in either case, with frame count the sum of the
two segments' previously filled frame counts. -/
theorem c5_dt_warning_absolute (a b : HistDataMD) (t : Bool) (o : List ℕ)
    (ha : a.temperature.length = a.ntime) :
    ("dtion are different !!! BE VERY CAREFULL FOR ANALYSIS !!!" ∈
        (histDataMDAppend a b t o).2 ↔
      (1 < a.ntime ∧ 1 < b.ntime ∧
        1/1000000 <
          |lget a.time 1 - lget a.time 0 - (lget b.time 1 - lget b.time 0)|)) ∧
    (histDataMDAppend a b t o).1.ntime = a.ntime + b.ntime := by
  constructor
  · show _ ∈ mergeWarnings a b ↔ mergeDtWarning a b
    by_cases hdt : mergeDtWarning a b <;>
      by_cases htw : mergeTempWarning a b <;>
        by_cases hpw : mergePressWarning a b <;>
          simp [mergeWarnings, hdt, htw, hpw]
  · show (if a.temperature.length = a.ntime then histDataAppendBase a b else a).ntime = _
    rw [if_pos ha, histDataAppendBase]

/-- C5 witness: the amended theorem applied to the concrete segments
`c5Base`, `c5Appended`. -/
theorem c5_dt_warning_absolute_witness :
    (histDataMDAppend c5Base c5Appended false []).1.ntime =
      c5Base.ntime + c5Appended.ntime :=
  (c5_dt_warning_absolute c5Base c5Appended false [] rfl).2

theorem blockIndex_lt (X p q r : ℕ) (hpq : p < q) (hr : r < X) : p * X + r < q * X :=
  lt_of_lt_of_le (Nat.add_lt_add_left hr _)
    (by rw [← Nat.succ_mul]; exact Nat.mul_le_mul_right X hpq)

theorem length_permCopyCoord (src : List ℚ) (start natom itime iatom : ℕ)
    (order : List ℕ) (dst : List ℚ) :
    ∀ n, (permCopyCoord src start natom itime iatom order dst n).length = dst.length
  | 0 => rfl
  | c + 1 => by
      simp [permCopyCoord, length_permCopyCoord src start natom itime iatom order dst c]

theorem lget_permCopyCoord_out (src : List ℚ) (start natom itime iatom : ℕ)
    (order : List ℕ) (dst : List ℚ) :
    ∀ n j, (j < start + itime * 3 * natom + iatom * 3 ∨
        start + itime * 3 * natom + iatom * 3 + n ≤ j) →
      lget (permCopyCoord src start natom itime iatom order dst n) j = lget dst j
  | 0, _, _ => rfl
  | c + 1, j, h => by
      rw [permCopyCoord, lget_set_ne _ _ _ _ (by omega),
        lget_permCopyCoord_out src start natom itime iatom order dst c j (by omega)]

theorem lget_permCopyCoord_at (src : List ℚ) (start natom itime iatom : ℕ)
    (order : List ℕ) (dst : List ℚ) :
    ∀ n c, c < n → start + itime * 3 * natom + iatom * 3 + c < dst.length →
      lget (permCopyCoord src start natom itime iatom order dst n)
          (start + itime * 3 * natom + iatom * 3 + c) =
        lget src (itime * 3 * natom + (order.getD iatom 0) * 3 + c)
  | 0, c, h, _ => absurd h (Nat.not_lt_zero c)
  | n + 1, c, h, hlen => by
      rcases Nat.lt_succ_iff_lt_or_eq.mp h with h' | rfl
      · rw [permCopyCoord, lget_set_ne _ _ _ _ (by omega),
          lget_permCopyCoord_at src start natom itime iatom order dst n c h' hlen]
      · rw [permCopyCoord,
          lget_set_self _ _ _ (by rw [length_permCopyCoord]; exact hlen)]

theorem length_permCopyAtom (src : List ℚ) (start natom itime : ℕ)
    (order : List ℕ) (dst : List ℚ) :
    ∀ n, (permCopyAtom src start natom itime order dst n).length = dst.length
  | 0 => rfl
  | ia + 1 => by
      rw [permCopyAtom, length_permCopyCoord,
        length_permCopyAtom src start natom itime order dst ia]

theorem lget_permCopyAtom_out (src : List ℚ) (start natom itime : ℕ)
    (order : List ℕ) (dst : List ℚ) :
    ∀ n j, (j < start + itime * 3 * natom ∨ start + itime * 3 * natom + n * 3 ≤ j) →
      lget (permCopyAtom src start natom itime order dst n) j = lget dst j
  | 0, _, _ => rfl
  | ia + 1, j, h => by
      rw [permCopyAtom, lget_permCopyCoord_out _ _ _ _ _ _ _ 3 j (by omega),
        lget_permCopyAtom_out src start natom itime order dst ia j (by omega)]

theorem lget_permCopyAtom_at (src : List ℚ) (start natom itime : ℕ)
    (order : List ℕ) (dst : List ℚ) :
    ∀ n iatom c, iatom < n → c < 3 →
      start + itime * 3 * natom + iatom * 3 + c < dst.length →
      lget (permCopyAtom src start natom itime order dst n)
          (start + itime * 3 * natom + iatom * 3 + c) =
        lget src (itime * 3 * natom + (order.getD iatom 0) * 3 + c)
  | 0, iatom, _, h, _, _ => absurd h (Nat.not_lt_zero iatom)
  | n + 1, iatom, c, h, hc, hlen => by
      rcases Nat.lt_succ_iff_lt_or_eq.mp h with h' | rfl
      · rw [permCopyAtom, lget_permCopyCoord_out _ _ _ _ _ _ _ 3 _ (by omega),
          lget_permCopyAtom_at src start natom itime order dst n iatom c h' hc hlen]
      · rw [permCopyAtom,
          lget_permCopyCoord_at _ _ _ _ _ _ _ 3 c hc
            (by rw [length_permCopyAtom]; exact hlen)]

theorem length_permCopyTime (src : List ℚ) (start natom : ℕ)
    (order : List ℕ) (dst : List ℚ) :
    ∀ n, (permCopyTime src start natom order dst n).length = dst.length
  | 0 => rfl
  | it + 1 => by
      rw [permCopyTime, length_permCopyAtom,
        length_permCopyTime src start natom order dst it]

theorem lget_permCopyTime_at (src : List ℚ) (start natom : ℕ)
    (order : List ℕ) (dst : List ℚ) :
    ∀ n itime iatom c, itime < n → iatom < natom → c < 3 →
      start + itime * 3 * natom + iatom * 3 + c < dst.length →
      lget (permCopyTime src start natom order dst n)
          (start + itime * 3 * natom + iatom * 3 + c) =
        lget src (itime * 3 * natom + (order.getD iatom 0) * 3 + c)
  | 0, itime, _, _, h, _, _, _ => absurd h (Nat.not_lt_zero itime)
  | n + 1, itime, iatom, c, h, hia, hc, hlen => by
      rcases Nat.lt_succ_iff_lt_or_eq.mp h with h' | rfl
      · have hkey : itime * 3 * natom + (iatom * 3 + c) < n * 3 * natom := by
          have h1 : iatom * 3 + c < 3 * natom := by omega
          have h2 : itime * (3 * natom) + (iatom * 3 + c) < n * (3 * natom) :=
            blockIndex_lt (3 * natom) itime n (iatom * 3 + c) h' h1
          calc itime * 3 * natom + (iatom * 3 + c)
              = itime * (3 * natom) + (iatom * 3 + c) := by ring
            _ < n * (3 * natom) := h2
            _ = n * 3 * natom := by ring
        rw [permCopyTime, lget_permCopyAtom_out _ _ _ _ _ _ natom _ (Or.inl (by omega)),
          lget_permCopyTime_at src start natom order dst n itime iatom c h' hia hc hlen]
      · rw [permCopyTime,
          lget_permCopyAtom_at _ _ _ _ _ _ natom iatom c hia hc
            (by rw [length_permCopyTime]; exact hlen)]

theorem histDataMDAppend_velocities_reorder (a b : HistDataMD) (t : Bool)
    (order : List ℕ) (ha : a.temperature.length = a.ntime)
    (hae : a.velocities.isEmpty = false) (hbe : b.velocities.isEmpty = false)
    (hr : reorderFlag t order = true) :
    (histDataMDAppend a b t order).1.velocities =
      permCopyVel (lresize a.velocities ((a.ntime + b.ntime) * a.natom * 3))
        b.velocities (a.ntime * a.natom * 3) a.natom b.ntime order := by
  simp [histDataMDAppend, histDataAppendBase, ha, hae, hbe, hr, permCopyVel]

theorem histDataMDAppend_velocities_direct (a b : HistDataMD) (t : Bool)
    (order : List ℕ) (ha : a.temperature.length = a.ntime)
    (hae : a.velocities.isEmpty = false) (hbe : b.velocities.isEmpty = false)
    (hr : reorderFlag t order = false) :
    (histDataMDAppend a b t order).1.velocities =
      copyInto (lresize a.velocities ((a.ntime + b.ntime) * a.natom * 3))
        b.velocities (a.ntime * a.natom * 3) := by
  simp [histDataMDAppend, histDataAppendBase, ha, hae, hbe, hr]

/-- C6: for every merge with atom reconciliation requested whose computed
permutation is not the identity (`reorderFlag t order = true`), the appended
segment's velocity for base atom `iatom`, component `c`, at appended frame
`itime`, equals the appended store's velocity of atom `order[iatom]`, same
component, same frame; if the permutation is the identity or reconciliation
is not requested (`reorderFlag t order = false`), the appended velocities
are copied directly without permutation. -/
theorem c6_merge_velocity_permutation (a b : HistDataMD) (t : Bool)
    (order : List ℕ) (ha : a.temperature.length = a.ntime)
    (hae : a.velocities.isEmpty = false) (hbe : b.velocities.isEmpty = false)
    (hbv : b.velocities.length = 3 * a.natom * b.ntime) :
    (reorderFlag t order = true →
      ∀ itime iatom c, itime < b.ntime → iatom < a.natom → c < 3 →
        lget (histDataMDAppend a b t order).1.velocities
            (a.ntime * a.natom * 3 + itime * 3 * a.natom + iatom * 3 + c) =
          lget b.velocities (itime * 3 * a.natom + (order.getD iatom 0) * 3 + c)) ∧
    (reorderFlag t order = false →
      ∀ k, k < b.velocities.length →
        lget (histDataMDAppend a b t order).1.velocities
            (a.ntime * a.natom * 3 + k) =
          lget b.velocities k) := by
  have hlen : (lresize a.velocities ((a.ntime + b.ntime) * a.natom * 3)).length =
      (a.ntime + b.ntime) * a.natom * 3 := length_lresize _ _
  constructor
  · intro hr itime iatom c hit hia hc
    rw [histDataMDAppend_velocities_reorder a b t order ha hae hbe hr]
    have hbound : a.ntime * a.natom * 3 + itime * 3 * a.natom + iatom * 3 + c <
        (a.ntime + b.ntime) * a.natom * 3 := by
      have h1 : iatom * 3 + c < a.natom * 3 := by omega
      have h2 : (a.ntime + itime) * (a.natom * 3) + (iatom * 3 + c) <
          (a.ntime + b.ntime) * (a.natom * 3) :=
        blockIndex_lt (a.natom * 3) (a.ntime + itime) (a.ntime + b.ntime)
          (iatom * 3 + c) (by omega) h1
      calc a.ntime * a.natom * 3 + itime * 3 * a.natom + iatom * 3 + c
          = (a.ntime + itime) * (a.natom * 3) + (iatom * 3 + c) := by ring
        _ < (a.ntime + b.ntime) * (a.natom * 3) := h2
        _ = (a.ntime + b.ntime) * a.natom * 3 := by ring
    have := lget_permCopyTime_at b.velocities (a.ntime * a.natom * 3) a.natom order
      (lresize a.velocities ((a.ntime + b.ntime) * a.natom * 3)) b.ntime itime iatom c
      hit hia hc (by rw [hlen]; omega)
    calc lget (permCopyVel (lresize a.velocities ((a.ntime + b.ntime) * a.natom * 3))
            b.velocities (a.ntime * a.natom * 3) a.natom b.ntime order)
          (a.ntime * a.natom * 3 + itime * 3 * a.natom + iatom * 3 + c)
        = lget (permCopyTime b.velocities (a.ntime * a.natom * 3) a.natom order
            (lresize a.velocities ((a.ntime + b.ntime) * a.natom * 3)) b.ntime)
          (a.ntime * a.natom * 3 + itime * 3 * a.natom + iatom * 3 + c) := rfl
      _ = lget b.velocities (itime * 3 * a.natom + (order.getD iatom 0) * 3 + c) := this
  · intro hr k hk
    rw [histDataMDAppend_velocities_direct a b t order ha hae hbe hr]
    have hbound : a.ntime * a.natom * 3 + k < (a.ntime + b.ntime) * a.natom * 3 := by
      have h1 : (a.ntime + b.ntime) * a.natom * 3 =
          a.ntime * a.natom * 3 + b.ntime * (a.natom * 3) := by ring
      have h2 : 3 * a.natom * b.ntime = b.ntime * (a.natom * 3) := by ring
      omega
    exact lget_copyInto_mid _ _ _ k hk (by rw [hlen]; omega)

/-- C6 witness: merging the reversed-order two-atom segments with
reconciliation enabled (`order = [1, 0]`): base atom `0`'s appended-frame
velocity components come from appended atom `1`. -/
theorem c6_merge_velocity_permutation_witness :
    lget (histDataMDAppend c6Base c6Appended true [1, 0]).1.velocities
        (c6Base.ntime * c6Base.natom * 3 + 0 * 3 * c6Base.natom + 0 * 3 + 0) =
      lget c6Appended.velocities
        (0 * 3 * c6Base.natom + (([1, 0] : List ℕ).getD 0 0) * 3 + 0) :=
  (c6_merge_velocity_permutation c6Base c6Appended true [1, 0] rfl rfl rfl rfl).1
    rfl 0 0 0 (by decide) (by decide) (by decide)

theorem length_renormAux (p : List ℚ) (nm : ℚ) :
    ∀ n, (renormAux p nm n).length = p.length
  | 0 => rfl
  | n + 1 => by simp [renormAux, length_renormAux p nm n]

theorem lget_renormAux_ge (p : List ℚ) (nm : ℚ) :
    ∀ n j, n ≤ j → lget (renormAux p nm n) j = lget p j
  | 0, _, _ => rfl
  | n + 1, j, h => by
      rw [renormAux, lget_set_ne _ _ _ _ (by omega),
        lget_renormAux_ge p nm n j (by omega)]

theorem lget_renormAux_lt (p : List ℚ) (nm : ℚ) :
    ∀ n i, i < n → i < p.length → lget (renormAux p nm n) i = lget p i / nm
  | 0, i, h, _ => absurd h (Nat.not_lt_zero i)
  | n + 1, i, h, hl => by
      rcases Nat.lt_succ_iff_lt_or_eq.mp h with h' | heq
      · rw [renormAux, lget_set_ne _ _ _ _ (by omega),
          lget_renormAux_lt p nm n i h' hl]
      · subst heq
        rw [renormAux, lget_set_self _ _ _ (by rw [length_renormAux]; exact hl),
          lget_renormAux_ge p nm i i le_rfl]

theorem normeAux_div (q p : List ℚ) (nm dw : ℚ) :
    ∀ n, (∀ i, i ≤ n → lget q i = lget p i / nm) →
      normeAux q dw n = normeAux p dw n / nm
  | 0, _ => by simp [normeAux]
  | n + 1, h => by
      rw [normeAux, normeAux, normeAux_div q p nm dw n (fun i hi => h i (by omega)),
        h n (by omega), h (n + 1) le_rfl]
      ring

/-- C10: after the renormalization step of `computeThermoFunctionHA`
(histdatamd.cpp:916-921), the midpoint-trapezoidal sum of the renormalized
PDOS samples times the bin width, taken up to the cutoff index `nmax`
(the full range when no cutoff is given, `omegaMax < 0`), equals `1` within
the numerical tolerance `1e-6` (in this exact-arithmetic embedding it is
exactly `1`), whenever the pre-normalization integral is non-zero. -/
theorem c10_pdos_renormalized_integral (pdos : List ℚ) (domega omegaMax : ℚ)
    (h : pdosNorme pdos (nmaxOf omegaMax domega pdos.length) domega ≠ 0) :
    |pdosNorme (pdosRenorm pdos (nmaxOf omegaMax domega pdos.length) domega)
        (nmaxOf omegaMax domega pdos.length) domega - 1| ≤ 1/1000000 := by
  have hle : nmaxOf omegaMax domega pdos.length ≤ pdos.length := by
    unfold nmaxOf
    split
    · exact le_rfl
    · exact min_le_right _ _
  have hpos : 1 ≤ nmaxOf omegaMax domega pdos.length := by
    rcases Nat.eq_zero_or_pos (nmaxOf omegaMax domega pdos.length) with h0 | h1
    · exfalso
      apply h
      rw [h0]
      rfl
    · exact h1
  have key : pdosNorme (pdosRenorm pdos (nmaxOf omegaMax domega pdos.length) domega)
      (nmaxOf omegaMax domega pdos.length) domega =
      pdosNorme pdos (nmaxOf omegaMax domega pdos.length) domega /
        pdosNorme pdos (nmaxOf omegaMax domega pdos.length) domega := by
    unfold pdosNorme pdosRenorm
    apply normeAux_div
    intro i hi
    have hilt : i < nmaxOf omegaMax domega pdos.length := by omega
    exact lget_renormAux_lt pdos _ _ i hilt (by omega)
  rw [key, div_self h]
  norm_num

/-- C10 witness: the renormalization applied to the flat two-bin PDOS
`[1, 1]` with bin width `1` and no cutoff. -/
theorem c10_pdos_renormalized_integral_witness :
    |pdosNorme (pdosRenorm [1, 1] (nmaxOf (-1) 1 ([1, 1] : List ℚ).length) 1)
        (nmaxOf (-1) 1 ([1, 1] : List ℚ).length) 1 - 1| ≤ 1/1000000 :=
  c10_pdos_renormalized_integral [1, 1] 1 (-1)
    (by norm_num [pdosNorme, nmaxOf, normeAux, lget])

theorem length_vacfTmpCoord (fullvacf : List ℚ) (natom itau iatom : ℕ)
    (typat : List ℕ) (acc : List ℚ) :
    ∀ m, (vacfTmpCoord fullvacf natom itau iatom typat acc m).length = acc.length
  | 0 => rfl
  | m + 1 => by
      simp [vacfTmpCoord, length_vacfTmpCoord fullvacf natom itau iatom typat acc m]

theorem length_vacfTmpAtom (fullvacf : List ℚ) (natom itau : ℕ)
    (typat : List ℕ) (acc : List ℚ) :
    ∀ n, (vacfTmpAtom fullvacf natom itau typat acc n).length = acc.length
  | 0 => rfl
  | n + 1 => by
      rw [vacfTmpAtom, length_vacfTmpCoord,
        length_vacfTmpAtom fullvacf natom itau typat acc n]

theorem vacfTmpCoord_char (fullvacf : List ℚ) (natom itau iatom : ℕ)
    (typat : List ℕ) (nsp : ℕ) (acc : List ℚ) (hacc : acc.length = nsp + 1)
    (ht1 : 1 ≤ typat.getD iatom 0) (ht2 : typat.getD iatom 0 ≤ nsp) :
    ∀ m s, s ≤ nsp →
      lget (vacfTmpCoord fullvacf natom itau iatom typat acc m) s =
        lget acc s +
          (if s = 0 ∨ s = typat.getD iatom 0 then
            ∑ c ∈ Finset.range m, lget fullvacf (itau * 3 * natom + iatom * 3 + c)
          else 0)
  | 0, s, _ => by simp [vacfTmpCoord]
  | m + 1, s, hs => by
      have hlen1 : (vacfTmpCoord fullvacf natom itau iatom typat acc m).length =
          nsp + 1 := by rw [length_vacfTmpCoord, hacc]
      have ih := vacfTmpCoord_char fullvacf natom itau iatom typat nsp acc hacc
        ht1 ht2 m s hs
      rw [vacfTmpCoord]
      by_cases hst : s = typat.getD iatom 0
      · have hs0 : ¬ s = 0 := by omega
        rw [← hst, lget_set_self _ _ _ (by simp [hlen1]; omega),
          lget_set_ne _ _ _ _ (by omega), ih, if_pos (Or.inr hst),
          if_pos (Or.inr rfl), Finset.sum_range_succ]
        ring
      · by_cases hs0 : s = 0
        · subst hs0
          rw [lget_set_ne _ _ _ _ (by omega), lget_set_self _ _ _ (by omega), ih,
            if_pos (Or.inl rfl), if_pos (Or.inl rfl), Finset.sum_range_succ]
          ring
        · rw [lget_set_ne _ _ _ _ (by omega), lget_set_ne _ _ _ _ (by omega), ih,
            if_neg (by tauto), if_neg (by tauto)]

theorem lget_replicate_zero (n i : ℕ) : lget (List.replicate n (0 : ℚ)) i = 0 := by
  by_cases h : i < n
  · simp [lget, List.getD_eq_getElem?_getD, List.getElem?_replicate, h]
  · exact lget_oob _ _ (by simp; omega)

theorem vacfTmpAtom_char (fullvacf : List ℚ) (natom itau : ℕ) (typat : List ℕ)
    (nsp : ℕ) (acc : List ℚ) (hacc : acc.length = nsp + 1) :
    ∀ n, (∀ i, i < n → 1 ≤ typat.getD i 0 ∧ typat.getD i 0 ≤ nsp) →
      ∀ s, s ≤ nsp →
      lget (vacfTmpAtom fullvacf natom itau typat acc n) s =
        lget acc s +
          (if s = 0 then
            ∑ i ∈ Finset.range n, ∑ c ∈ Finset.range 3,
              lget fullvacf (itau * 3 * natom + i * 3 + c)
          else
            ∑ i ∈ Finset.range n,
              (if typat.getD i 0 = s then
                ∑ c ∈ Finset.range 3, lget fullvacf (itau * 3 * natom + i * 3 + c)
              else 0))
  | 0, _, s, _ => by simp [vacfTmpAtom]
  | n + 1, ht, s, hs => by
      have hlen : (vacfTmpAtom fullvacf natom itau typat acc n).length = nsp + 1 := by
        rw [length_vacfTmpAtom, hacc]
      have htn := ht n (by omega)
      rw [vacfTmpAtom,
        vacfTmpCoord_char fullvacf natom itau n typat nsp _ hlen htn.1 htn.2 3 s hs,
        vacfTmpAtom_char fullvacf natom itau typat nsp acc hacc n
          (fun i hi => ht i (by omega)) s hs]
      by_cases hs0 : s = 0
      · subst hs0
        rw [if_pos rfl, if_pos rfl, if_pos (Or.inl rfl),
          Finset.sum_range_succ (fun i => ∑ c ∈ Finset.range 3,
            lget fullvacf (itau * 3 * natom + i * 3 + c)) n]
        ring
      · rw [if_neg hs0, if_neg hs0,
          Finset.sum_range_succ (fun i => if typat.getD i 0 = s then
            ∑ c ∈ Finset.range 3, lget fullvacf (itau * 3 * natom + i * 3 + c) else 0) n]
        by_cases hts : typat.getD n 0 = s
        · rw [if_pos hts, if_pos (Or.inr hts.symm)]
          ring
        · rw [if_neg hts, if_neg (by rintro (h | h); exacts [hs0 h, hts h.symm])]
          ring

theorem ngetD_set_self (l : List ℕ) (i v : ℕ) (h : i < l.length) :
    (l.set i v).getD i 0 = v := by
  simp [List.getD_eq_getElem?_getD, List.getElem?_set, h]

theorem ngetD_set_ne (l : List ℕ) (i j v : ℕ) (h : i ≠ j) :
    (l.set i v).getD j 0 = l.getD j 0 := by
  simp [List.getD_eq_getElem?_getD, List.getElem?_set, h]

theorem ngetD_replicate_zero (n i : ℕ) : (List.replicate n (0 : ℕ)).getD i 0 = 0 := by
  by_cases h : i < n
  · simp [List.getD_eq_getElem?_getD, List.getElem?_replicate, h]
  · exact List.getD_eq_default _ _ (by simp; omega)

theorem length_bumpCounts (typat acc : List ℕ) :
    ∀ n, (bumpCounts typat acc n).length = acc.length
  | 0 => rfl
  | n + 1 => by simp [bumpCounts, length_bumpCounts typat acc n]

theorem bumpCounts_char (typat acc : List ℕ) :
    ∀ n, (∀ i, i < n → typat.getD i 0 < acc.length) →
      ∀ s, s < acc.length →
      (bumpCounts typat acc n).getD s 0 =
        acc.getD s 0 + ∑ i ∈ Finset.range n, (if typat.getD i 0 = s then 1 else 0)
  | 0, _, s, _ => by simp [bumpCounts]
  | n + 1, ht, s, hs => by
      have hlen : (bumpCounts typat acc n).length = acc.length :=
        length_bumpCounts typat acc n
      rw [bumpCounts]
      by_cases hts : typat.getD n 0 = s
      · rw [hts, ngetD_set_self _ _ _ (by rw [hlen]; exact hs),
          bumpCounts_char typat acc n (fun i hi => ht i (by omega)) s hs,
          Finset.sum_range_succ, if_pos hts]
        omega
      · rw [ngetD_set_ne _ _ _ _ (by omega),
          bumpCounts_char typat acc n (fun i hi => ht i (by omega)) s hs,
          Finset.sum_range_succ, if_neg hts]
        omega

theorem ntypatList_getD_zero (natom : ℕ) (typat : List ℕ) (nsp : ℕ) :
    (ntypatList natom typat nsp).getD 0 0 = natom := by
  rw [ntypatList]
  apply ngetD_set_self
  rw [length_bumpCounts]
  simp

theorem ntypatList_getD_pos (natom : ℕ) (typat : List ℕ) (nsp s : ℕ)
    (hs1 : 1 ≤ s) (hs : s ≤ nsp)
    (ht : ∀ i, i < natom → typat.getD i 0 ≤ nsp) :
    (ntypatList natom typat nsp).getD s 0 =
      ∑ i ∈ Finset.range natom, (if typat.getD i 0 = s then 1 else 0) := by
  rw [ntypatList, ngetD_set_ne _ _ _ _ (by omega),
    bumpCounts_char typat _ natom
      (fun i hi => by rw [List.length_replicate]; exact Nat.lt_succ_of_le (ht i hi))
      s (by rw [List.length_replicate]; omega),
    ngetD_replicate_zero, Nat.zero_add]

/-- C9: at every lag, the "all species" VACF accumulator value multiplied by
`3*atomCount` equals the sum over species of the per-species VACF value
multiplied by `3*(atom count of that species)` — the aggregates agree before
the per-species normalization and the common unit conversion
(histdatamd.cpp:659-688).  `fullvacf` is the raw output of the external
`HistData::acf` over the requested window `[tbegin, tend)`, so the identity
holds for every valid window. -/
theorem c9_vacf_species_conservation (fullvacf : List ℚ) (natom : ℕ)
    (typat : List ℕ) (nsp : ℕ) (conv : ℚ) (itau : ℕ) (hnatom : 1 ≤ natom)
    (htypat : ∀ i, i < natom → 1 ≤ typat.getD i 0 ∧ typat.getD i 0 ≤ nsp) :
    vacfSpecies fullvacf natom typat nsp conv 0 itau * (3 * (natom : ℚ)) =
      ∑ s ∈ Finset.Icc 1 nsp,
        vacfSpecies fullvacf natom typat nsp conv s itau *
          (3 * (((ntypatList natom typat nsp).getD s 0 : ℕ) : ℚ)) := by
  have hacc : (List.replicate (nsp + 1) (0 : ℚ)).length = nsp + 1 := by simp
  have hgen : ∀ x y c : ℚ, y ≠ 0 → x / y * c * y = x * c := by
    intro x y c hy
    calc x / y * c * y = x * c * (y / y) := by ring
      _ = x * c := by rw [div_self hy, mul_one]
  have hT0 : lget (vacfTmp fullvacf natom typat nsp itau) 0 =
      ∑ i ∈ Finset.range natom, ∑ c ∈ Finset.range 3,
        lget fullvacf (itau * 3 * natom + i * 3 + c) := by
    rw [vacfTmp,
      vacfTmpAtom_char fullvacf natom itau typat nsp _ hacc natom htypat 0 (by omega),
      lget_replicate_zero, if_pos rfl, zero_add]
  have hTs : ∀ s, 1 ≤ s → s ≤ nsp →
      lget (vacfTmp fullvacf natom typat nsp itau) s =
      ∑ i ∈ Finset.range natom,
        (if typat.getD i 0 = s then
          ∑ c ∈ Finset.range 3, lget fullvacf (itau * 3 * natom + i * 3 + c)
        else 0) := by
    intro s hs1 hs2
    rw [vacfTmp,
      vacfTmpAtom_char fullvacf natom itau typat nsp _ hacc natom htypat s hs2,
      lget_replicate_zero, if_neg (by omega), zero_add]
  have hLHS : vacfSpecies fullvacf natom typat nsp conv 0 itau * (3 * (natom : ℚ)) =
      lget (vacfTmp fullvacf natom typat nsp itau) 0 * conv := by
    rw [vacfSpecies, ntypatList_getD_zero]
    have hne : (3 * (natom : ℚ)) ≠ 0 := by
      have h0 : (0 : ℚ) < natom := by exact_mod_cast hnatom
      positivity
    exact hgen _ _ _ hne
  have hRHS : ∀ s ∈ Finset.Icc 1 nsp,
      vacfSpecies fullvacf natom typat nsp conv s itau *
          (3 * (((ntypatList natom typat nsp).getD s 0 : ℕ) : ℚ)) =
        lget (vacfTmp fullvacf natom typat nsp itau) s * conv := by
    intro s hsmem
    rw [Finset.mem_Icc] at hsmem
    have hcount := ntypatList_getD_pos natom typat nsp s hsmem.1 hsmem.2
      (fun j hj => (htypat j hj).2)
    by_cases hcnt : ((ntypatList natom typat nsp).getD s 0) = 0
    · have hsum0 : (∑ i ∈ Finset.range natom,
          (if typat.getD i 0 = s then 1 else 0)) = 0 := by
        rw [← hcount]; exact hcnt
      have hzero : lget (vacfTmp fullvacf natom typat nsp itau) s = 0 := by
        rw [hTs s hsmem.1 hsmem.2]
        apply Finset.sum_eq_zero
        intro i hi
        have hterm := (Finset.sum_eq_zero_iff.mp hsum0) i hi
        by_cases hti : typat.getD i 0 = s
        · rw [if_pos hti] at hterm
          exact absurd hterm one_ne_zero
        · rw [if_neg hti]
      rw [vacfSpecies, hzero, hcnt]
      simp
    · have hne : (3 * (((ntypatList natom typat nsp).getD s 0 : ℕ) : ℚ)) ≠ 0 := by
        have h0 : (0 : ℚ) < (((ntypatList natom typat nsp).getD s 0 : ℕ) : ℚ) := by
          exact_mod_cast Nat.pos_of_ne_zero hcnt
        positivity
      rw [vacfSpecies]
      exact hgen _ _ _ hne
  rw [hLHS, Finset.sum_congr rfl hRHS, Finset.sum_congr rfl
    (fun s hs => by rw [hTs s (Finset.mem_Icc.mp hs).1 (Finset.mem_Icc.mp hs).2]),
    ← Finset.sum_mul, hT0]
  congr 1
  conv_rhs => rw [Finset.sum_comm]
  apply Finset.sum_congr rfl
  intro i hi
  rw [Finset.sum_ite_eq, if_pos]
  rw [Finset.mem_Icc]
  exact ⟨(htypat i (Finset.mem_range.mp hi)).1, (htypat i (Finset.mem_range.mp hi)).2⟩

/-- C9 witness: two atoms of two different species, a concrete raw
autocorrelation, lag `0`. -/
theorem c9_vacf_species_conservation_witness :
    vacfSpecies [1, 2, 3, 4, 5, 6] 2 [1, 2] 2 1 0 0 * (3 * (2 : ℚ)) =
      ∑ s ∈ Finset.Icc 1 2,
        vacfSpecies [1, 2, 3, 4, 5, 6] 2 [1, 2] 2 1 s 0 *
          (3 * (((ntypatList 2 [1, 2] 2).getD s 0 : ℕ) : ℚ)) :=
  c9_vacf_species_conservation [1, 2, 3, 4, 5, 6] 2 [1, 2] 2 1 0 (by omega)
    (by intro i hi; interval_cases i <;> simp)

theorem interpolate_ntime_entropy (h : HistDataMD) (ninter : ℕ) (amplitude : ℚ) :
    (h.interpolate ninter amplitude).ntime =
      ((ninter : ℤ) * ((h.ntime : ℤ) - 1) -
        (if |amplitude - 1| < 1/10000000000 then (h.ntime : ℤ) - 2 else 0)).toNat ∧
    (h.interpolate ninter amplitude).entropy.length =
      ((ninter : ℤ) * ((h.ntime : ℤ) - 1) -
        (if |amplitude - 1| < 1/10000000000 then (h.ntime : ℤ) - 2 else 0)).toNat := by
  constructor
  · rfl
  · show (mdInterpSeries 1 _ _ _ _ _ _ _).length = _
    rw [mdInterpSeries_length]

/-- C7: for every store with `ntime ≥ 2` and every `ninter ≥ 2`,
interpolation produces exactly `ninter*(ntime-1)` frames when
`|amplitude-1| ≥ 1e-10`, and exactly `ninter*(ntime-1) - (ntime-2)` frames
when `|amplitude-1| < 1e-10` (one duplicated boundary frame elided per
interior boundary); the produced frame count is both the new `ntime` and the
length of the (per-frame) entropy series. -/
theorem c7_interpolate_frame_count (h : HistDataMD) (ninter : ℕ) (amplitude : ℚ)
    (h2 : 2 ≤ h.ntime) (hni : 2 ≤ ninter) :
    (|amplitude - 1| < 1/10000000000 →
      (h.interpolate ninter amplitude).ntime =
          ninter * (h.ntime - 1) - (h.ntime - 2) ∧
      (h.interpolate ninter amplitude).entropy.length =
          ninter * (h.ntime - 1) - (h.ntime - 2)) ∧
    (¬ (|amplitude - 1| < 1/10000000000) →
      (h.interpolate ninter amplitude).ntime = ninter * (h.ntime - 1) ∧
      (h.interpolate ninter amplitude).entropy.length = ninter * (h.ntime - 1)) := by
  have hbase := interpolate_ntime_entropy h ninter amplitude
  have hcast : (ninter : ℤ) * ((h.ntime : ℤ) - 1) =
      ((ninter * (h.ntime - 1) : ℕ) : ℤ) := by
    have h1 : ((h.ntime : ℤ) - 1) = ((h.ntime - 1 : ℕ) : ℤ) := by omega
    rw [h1]
    exact_mod_cast rfl
  constructor
  · intro hrd
    rw [hbase.1, hbase.2, if_pos hrd, hcast]
    omega
  · intro hrd
    rw [hbase.1, hbase.2, if_neg hrd, hcast]
    omega

/-- C7 witness: the two-frame store `c4Store` with `ninter = 2`: with
`amplitude = 1` the duplicate is elided (`2*(2-1) - (2-2) = 2` frames); with
`amplitude = 1/2` no elision happens (`2*(2-1) = 2` frames). -/
theorem c7_interpolate_frame_count_witness :
    (c4Store.interpolate 2 1).ntime = 2 * (c4Store.ntime - 1) - (c4Store.ntime - 2) ∧
    (c4Store.interpolate 2 (1/2)).entropy.length = 2 * (c4Store.ntime - 1) :=
  ⟨((c7_interpolate_frame_count c4Store 2 1 (by norm_num [c4Store]) (by norm_num)).1
      (by norm_num)).1,
   ((c7_interpolate_frame_count c4Store 2 (1/2) (by norm_num [c4Store]) (by norm_num)).2
      (by rw [not_lt, show |(1 : ℚ)/2 - 1| = 1/2 from by
            rw [abs_of_nonpos (by norm_num)]; norm_num]
          norm_num)).2⟩

theorem lget_lwriteBlockAux_out (b ct fs : ℕ) (g be : ℚ) (lB arr : List ℚ) :
    ∀ n j, (j < b * ct ∨ b * ct + n ≤ j) →
      lget (lwriteBlockAux b ct fs g be lB arr n) j = lget arr j
  | 0, _, _ => rfl
  | n + 1, j, h => by
      simp only [lwriteBlockAux]
      rw [lget_set_ne _ _ _ _ (by omega),
        lget_lwriteBlockAux_out b ct fs g be lB arr n j (by omega)]

theorem lget_lwriteBlockAux_at (b ct fs : ℕ) (g be : ℚ) (lB arr : List ℚ)
    (hfs : fs ≤ ct) :
    ∀ n, n ≤ b → ∀ d, d < n → b * ct + d < arr.length →
      lget (lwriteBlockAux b ct fs g be lB arr n) (b * ct + d) =
        g * lget lB d + be * lget arr (b * fs + d)
  | 0, _, d, hd, _ => absurd hd (Nat.not_lt_zero d)
  | n + 1, hnb, d, hd, hlen => by
      simp only [lwriteBlockAux]
      rcases Nat.lt_succ_iff_lt_or_eq.mp hd with h' | heq
      · rw [lget_set_ne _ _ _ _ (by omega),
          lget_lwriteBlockAux_at b ct fs g be lB arr hfs n (by omega) d h' hlen]
      · subst heq
        rw [lget_set_self _ _ _ (by rw [length_lwriteBlockAux]; exact hlen)]
        rcases Nat.lt_or_ge fs ct with hlt | hge
        · rw [lget_lwriteBlockAux_out b ct fs g be lB arr d (b * fs + d)
            (Or.inl (by
              have e1 : b * (fs + 1) = b * fs + b := by ring
              have e2 : b * (fs + 1) ≤ b * ct := Nat.mul_le_mul_left b hlt
              omega))]
        · have hfseq : fs = ct := by omega
          subst hfseq
          rw [lget_lwriteBlockAux_out b fs fs g be lB arr d (b * fs + d)
            (Or.inr (by omega))]

theorem lget_lwriteBlock_out (b ct fs : ℕ) (g be : ℚ) (lB arr : List ℚ)
    (j : ℕ) (h : j < b * ct ∨ b * (ct + 1) ≤ j) :
    lget (lwriteBlock b ct fs g be lB arr) j = lget arr j := by
  have e1 : b * (ct + 1) = b * ct + b := by ring
  exact lget_lwriteBlockAux_out b ct fs g be lB arr b j (by omega)

theorem lget_lwriteBlock_at (b ct fs : ℕ) (g be : ℚ) (lB arr : List ℚ)
    (hfs : fs ≤ ct) (d : ℕ) (hd : d < b) (hlen : b * ct + d < arr.length) :
    lget (lwriteBlock b ct fs g be lB arr) (b * ct + d) =
      g * lget lB d + be * lget arr (b * fs + d) :=
  lget_lwriteBlockAux_at b ct fs g be lB arr hfs b le_rfl d hd hlen

theorem interpInner_char (b ninter : ℕ) (alpha : ℚ) (lB : List ℚ) (fs : ℕ) :
    ∀ k ct arr, 1 ≤ k → k ≤ ct + 1 → fs + k ≤ ct + 1 → b * (ct + 1) ≤ arr.length →
      k ≤ ninter →
      ((∀ j, j < b * (ct + 1 - k) →
          lget (interpInner b ninter alpha lB fs k ct arr).1 j = lget arr j) ∧
       (∀ j, b * (ct + 1) ≤ j →
          lget (interpInner b ninter alpha lB fs k ct arr).1 j = lget arr j) ∧
       (∀ d, d < b →
          lget (interpInner b ninter alpha lB fs k ct arr).1 (b * ct + d) =
            (1 - ((ninter - k : ℕ) : ℚ) * alpha) * lget lB d +
              ((ninter - k : ℕ) : ℚ) * alpha * lget arr (b * fs + d)) ∧
       (∀ d, d < b →
          lget (interpInner b ninter alpha lB fs k ct arr).1 (b * (ct + 1 - k) + d) =
            (1 - ((ninter - 1 : ℕ) : ℚ) * alpha) * lget lB d +
              ((ninter - 1 : ℕ) : ℚ) * alpha * lget arr (b * fs + d)))
  | 0, _, _, h1, _, _, _, _ => absurd h1 (by omega)
  | 1, ct, arr, _, hkct, hfs, hlen, hkni => by
      have hunf : interpInner b ninter alpha lB fs 1 ct arr =
          (lwriteBlock b ct fs (1 - ((ninter - 1 : ℕ) : ℚ) * alpha)
            (((ninter - 1 : ℕ) : ℚ) * alpha) lB arr, ct - 1) := rfl
      rw [hunf]
      have hfsct : fs ≤ ct := by omega
      have hct1 : ct + 1 - 1 = ct := by omega
      have hsplit : b * (ct + 1) = b * ct + b := by ring
      refine ⟨?_, ?_, ?_, ?_⟩
      · intro j hj
        rw [hct1] at hj
        exact lget_lwriteBlock_out b ct fs _ _ lB arr j (Or.inl hj)
      · intro j hj
        exact lget_lwriteBlock_out b ct fs _ _ lB arr j (Or.inr hj)
      · intro d hd
        exact lget_lwriteBlock_at b ct fs _ _ lB arr hfsct d hd (by omega)
      · intro d hd
        rw [hct1]
        exact lget_lwriteBlock_at b ct fs _ _ lB arr hfsct d hd (by omega)
  | k + 2, ct, arr, _, hkct, hfs, hlen, hkni => by
      have hunf : interpInner b ninter alpha lB fs (k + 2) ct arr =
          interpInner b ninter alpha lB fs (k + 1) (ct - 1)
            (lwriteBlock b ct fs (1 - ((ninter - (k + 2) : ℕ) : ℚ) * alpha)
              (((ninter - (k + 2) : ℕ) : ℚ) * alpha) lB arr) := rfl
      have hct : k + 1 ≤ ct := by omega
      have hct1 : ct - 1 + 1 = ct := by omega
      have hWlen : (lwriteBlock b ct fs (1 - ((ninter - (k + 2) : ℕ) : ℚ) * alpha)
          (((ninter - (k + 2) : ℕ) : ℚ) * alpha) lB arr).length = arr.length :=
        length_lwriteBlock _ _ _ _ _ _ _
      have hmono : b * ct ≤ b * (ct + 1) := Nat.mul_le_mul_left b (by omega)
      have hsplit : b * (ct + 1) = b * ct + b := by ring
      have ih := interpInner_char b ninter alpha lB fs (k + 1) (ct - 1)
        (lwriteBlock b ct fs (1 - ((ninter - (k + 2) : ℕ) : ℚ) * alpha)
          (((ninter - (k + 2) : ℕ) : ℚ) * alpha) lB arr)
        (by omega) (by omega) (by omega) (by rw [hWlen, hct1]; omega) (by omega)
      rw [hct1] at ih
      have hidx : ct - (k + 1) = ct + 1 - (k + 2) := by omega
      rw [hidx] at ih
      have hfslt : b * fs + b ≤ b * ct := by
        have e1 : b * (fs + 1) = b * fs + b := by ring
        have e2 : b * (fs + 1) ≤ b * ct := Nat.mul_le_mul_left b (by omega)
        omega
      rw [hunf]
      refine ⟨?_, ?_, ?_, ?_⟩
      · intro j hj
        have hmono2 : b * (ct + 1 - (k + 2)) ≤ b * ct := Nat.mul_le_mul_left b (by omega)
        rw [ih.1 j hj, lget_lwriteBlock_out b ct fs _ _ lB arr j (Or.inl (by omega))]
      · intro j hj
        rw [ih.2.1 j (by omega), lget_lwriteBlock_out b ct fs _ _ lB arr j (Or.inr hj)]
      · intro d hd
        rw [ih.2.1 (b * ct + d) (by omega),
          lget_lwriteBlock_at b ct fs _ _ lB arr (by omega) d hd (by omega)]
      · intro d hd
        rw [ih.2.2.2 d hd,
          lget_lwriteBlock_out b ct fs _ _ lB arr (b * fs + d) (Or.inl (by omega))]

theorem lget_map_range (f : ℕ → ℚ) (b d : ℕ) (h : d < b) :
    lget ((List.range b).map f) d = f d := by
  simp [lget, List.getD_eq_getElem?_getD, List.getElem?_map, List.getElem?_range, h]

theorem interpLoop_resample (b ninter : ℕ) (alpha : ℚ) (x : List ℚ)
    (hb : 1 ≤ b) (hni : 2 ≤ ninter) (halpha : ((ninter - 1 : ℕ) : ℚ) * alpha = 1) :
    ∀ l ct arr,
      (l ≠ 0 → ct = l * (ninter - 1)) →
      b * (l * (ninter - 1) + 1) ≤ arr.length →
      (∀ p, p ≤ l → ∀ d, d < b → lget arr (b * p + d) = lget x (b * p + d)) →
      (∀ j, l < j → ∀ d, d < b → lget arr (b * (j * (ninter - 1)) + d) = lget x (b * j + d)) →
      ∀ j d, d < b →
        lget (interpLoop b ninter alpha true l ct arr) (b * (j * (ninter - 1)) + d) =
          lget x (b * j + d)
  | 0, ct, arr, _, _, hA, hB, j, d, hd => by
      rcases Nat.eq_zero_or_pos j with hj | hj
      · subst hj
        simpa using hA 0 (le_refl 0) d hd
      · exact hB j (by omega) d hd
  | l + 1, ct, arr, hct, hlen, hA, hB, j, d, hd => by
      have hctv : ct = (l + 1) * (ninter - 1) := hct (by omega)
      have f1 : (l + 1) * (ninter - 1) = l * (ninter - 1) + (ninter - 1) :=
        Nat.succ_mul l (ninter - 1)
      have f2 : l * 1 ≤ l * (ninter - 1) := Nat.mul_le_mul_left l (by omega)
      rw [mul_one] at f2
      have hunf : interpLoop b ninter alpha true (l + 1) ct arr =
          interpLoop b ninter alpha true l
            ((interpInner b ninter alpha
              ((List.range b).map (fun d => lget arr (b * (l + 1) + d))) l ninter ct arr).2 + 1)
            (interpInner b ninter alpha
              ((List.range b).map (fun d => lget arr (b * (l + 1) + d))) l ninter ct arr).1 := rfl
      set LB := (List.range b).map (fun d => lget arr (b * (l + 1) + d)) with hLB
      have A2 : ninter ≤ ct + 1 := by omega
      have A3 : l + ninter ≤ ct + 1 := by omega
      have A4 : b * (ct + 1) ≤ arr.length := by
        have e : b * (ct + 1) = b * ((l + 1) * (ninter - 1) + 1) := by rw [hctv]
        omega
      have hsnd := interpInner_snd b ninter alpha LB l ninter ct arr
      have hflen := interpInner_fst_length b ninter alpha LB l ninter ct arr
      have inner := interpInner_char b ninter alpha LB l ninter ct arr
        (by omega) A2 A3 A4 le_rfl
      have hreg : ct + 1 - ninter = l * (ninter - 1) := by omega
      rw [hunf]
      have hct' : l ≠ 0 →
          (interpInner b ninter alpha LB l ninter ct arr).2 + 1 = l * (ninter - 1) := by
        intro hl
        rw [hsnd]
        have f3 : 1 * (ninter - 1) ≤ l * (ninter - 1) :=
          Nat.mul_le_mul_right (ninter - 1) (by omega)
        rw [one_mul] at f3
        omega
      have hlen' : b * (l * (ninter - 1) + 1) ≤
          (interpInner b ninter alpha LB l ninter ct arr).1.length := by
        rw [hflen]
        have hmono : b * (l * (ninter - 1) + 1) ≤ b * ((l + 1) * (ninter - 1) + 1) :=
          Nat.mul_le_mul_left b (by omega)
        omega
      have hA' : ∀ p, p ≤ l → ∀ d', d' < b →
          lget (interpInner b ninter alpha LB l ninter ct arr).1 (b * p + d') =
            lget x (b * p + d') := by
        intro p hp d' hd'
        rcases Nat.lt_or_ge (b * p + d') (b * (ct + 1 - ninter)) with hlt | hge
        · rw [inner.1 (b * p + d') hlt]
          exact hA p (by omega) d' hd'
        · rw [hreg] at hge
          have hple : p ≤ l * (ninter - 1) := by omega
          have hpe : p = l * (ninter - 1) := by
            by_contra hne
            have hplt : p + 1 ≤ l * (ninter - 1) := by omega
            have hm : b * (p + 1) ≤ b * (l * (ninter - 1)) :=
              Nat.mul_le_mul_left b hplt
            have e : b * (p + 1) = b * p + b := by ring
            omega
          have hpl : p = l := by omega
          have hidx2 : b * p + d' = b * (ct + 1 - ninter) + d' := by
            rw [hreg, ← hpe]
          have hidx4 : b * (ct + 1 - ninter) + d' = b * l + d' := by
            rw [hreg, ← hpe, hpl]
          rw [hidx2, inner.2.2.2 d' hd', halpha, hA l (by omega) d' hd', hidx4]
          ring
      have hB' : ∀ j', l < j' → ∀ d', d' < b →
          lget (interpInner b ninter alpha LB l ninter ct arr).1
              (b * (j' * (ninter - 1)) + d') =
            lget x (b * j' + d') := by
        intro j' hj' d' hd'
        rcases Nat.lt_or_ge j' (l + 2) with hjeq | hjgt
        · have hje : j' = l + 1 := by omega
          subst hje
          have hidx3 : b * ((l + 1) * (ninter - 1)) + d' = b * ct + d' := by rw [hctv]
          rw [hidx3, inner.2.2.1 d' hd', Nat.sub_self]
          have hLBd : lget LB d' = lget arr (b * (l + 1) + d') :=
            lget_map_range (fun d => lget arr (b * (l + 1) + d)) b d' hd'
          rw [hLBd, hA (l + 1) le_rfl d' hd']
          push_cast
          ring
        · have hm1 : (l + 2) * (ninter - 1) ≤ j' * (ninter - 1) :=
            Nat.mul_le_mul_right (ninter - 1) hjgt
          have f4 : (l + 2) * (ninter - 1) = (l + 1) * (ninter - 1) + (ninter - 1) :=
            Nat.succ_mul (l + 1) (ninter - 1)
          have hm2 : b * (ct + 1) ≤ b * (j' * (ninter - 1)) :=
            Nat.mul_le_mul_left b (by omega)
          rw [inner.2.1 (b * (j' * (ninter - 1)) + d') (by omega)]
          exact hB j' (by omega) d' hd'
      exact interpLoop_resample b ninter alpha x hb hni halpha l
        ((interpInner b ninter alpha LB l ninter ct arr).2 + 1)
        (interpInner b ninter alpha LB l ninter ct arr).1
        hct' hlen' hA' hB' j d hd

theorem mdInterpSeries_resample (b resizeLen ninter : ℕ) (alpha : ℚ) (x : List ℚ)
    (ntime newNTime : ℕ) (hb : 1 ≤ b) (hni : 2 ≤ ninter)
    (halpha : ((ninter - 1 : ℕ) : ℚ) * alpha = 1) (hnt : 2 ≤ ntime)
    (hnew : newNTime = (ntime - 1) * (ninter - 1) + 1)
    (hRL : b * newNTime ≤ resizeLen) (hx : x.length ≤ b * ntime) :
    ∀ j d, d < b →
      lget (mdInterpSeries b resizeLen ninter alpha true ntime newNTime x)
          (b * (j * (ninter - 1)) + d) =
        lget x (b * j + d) := by
  intro j d hd
  unfold mdInterpSeries
  have hntlt : ntime ≤ newNTime := by
    have hmm : (ntime - 1) * 1 ≤ (ntime - 1) * (ninter - 1) :=
      Nat.mul_le_mul_left (ntime - 1) (by omega)
    rw [mul_one] at hmm
    omega
  refine interpLoop_resample b ninter alpha x hb hni halpha (ntime - 1)
    (newNTime - 1) (lresize x resizeLen) ?_ ?_ ?_ ?_ j d hd
  · intro _
    omega
  · rw [length_lresize]
    have e : b * ((ntime - 1) * (ninter - 1) + 1) = b * newNTime := by rw [hnew]
    omega
  · intro p hp d' hd'
    have h1 : b * (p + 1) ≤ b * ntime := Nat.mul_le_mul_left b (by omega)
    have h2 : b * ntime ≤ b * newNTime := Nat.mul_le_mul_left b hntlt
    have h3 : b * (p + 1) = b * p + b := by ring
    rw [lget_lresize, if_pos (by omega)]
  · intro j' hj' d' hd'
    have hj2 : ntime ≤ j' := by omega
    have hm1 : ntime * (ninter - 1) ≤ j' * (ninter - 1) :=
      Nat.mul_le_mul_right (ninter - 1) hj2
    have f5 : ntime * (ninter - 1) = (ntime - 1) * (ninter - 1) + (ninter - 1) := by
      have e : ntime - 1 + 1 = ntime := by omega
      calc ntime * (ninter - 1) = (ntime - 1 + 1) * (ninter - 1) := by rw [e]
        _ = (ntime - 1) * (ninter - 1) + (ninter - 1) := Nat.succ_mul _ _
    have hge : b * newNTime ≤ b * (j' * (ninter - 1)) :=
      Nat.mul_le_mul_left b (by omega)
    have h2 : b * ntime ≤ b * newNTime := Nat.mul_le_mul_left b hntlt
    have h6 : b * ntime ≤ b * j' := Nat.mul_le_mul_left b hj2
    rw [lget_lresize, lget_oob x (b * j' + d') (by omega)]
    split
    · exact lget_oob x _ (by omega)
    · rfl

/-- C8: interpolating with `amplitude = 1` and re-sampling the interpolated
series at the positions corresponding to the original grid points
(original frame `j` lands at interpolated index `j*(ninter-1)`, since each
synthetic frame is the blend `gamma*last + beta*first` with
`beta = tinter*amplitude/(ninter-1)`, `gamma = 1-beta`, so segment endpoints
are the original frames) reproduces the original recorded values of the
velocities, kinetic energy, temperature, pressure and entropy exactly. -/
theorem c8_interpolate_boundary_exact (h : HistDataMD) (ninter : ℕ)
    (hna : 1 ≤ h.natom) (hnt : 2 ≤ h.ntime) (hni : 2 ≤ ninter)
    (hek : h.ekin.length = h.ntime)
    (hte : h.temperature.length = h.ntime)
    (hpr : h.pressure.length = h.ntime)
    (hen : h.entropy.length = h.ntime)
    (hve : h.velocities.length = 3 * h.natom * h.ntime) :
    ∀ j, j < h.ntime →
      lget (h.interpolate ninter 1).ekin (j * (ninter - 1)) = lget h.ekin j ∧
      lget (h.interpolate ninter 1).temperature (j * (ninter - 1)) =
        lget h.temperature j ∧
      lget (h.interpolate ninter 1).pressure (j * (ninter - 1)) =
        lget h.pressure j ∧
      lget (h.interpolate ninter 1).entropy (j * (ninter - 1)) =
        lget h.entropy j ∧
      (∀ d, d < 3 * h.natom →
        lget (h.interpolate ninter 1).velocities
            (3 * h.natom * (j * (ninter - 1)) + d) =
          lget h.velocities (3 * h.natom * j + d)) := by
  intro j hj
  have hrdP : |(1 : ℚ) - 1| < 1/10000000000 := by norm_num
  have hrdB : decide (|(1 : ℚ) - 1| < 1/10000000000) = true := decide_eq_true hrdP
  have hNN : ((ninter : ℤ) * ((h.ntime : ℤ) - 1) - ((h.ntime : ℤ) - 2)).toNat =
      (h.ntime - 1) * (ninter - 1) + 1 := by
    have hc1 : (ninter : ℤ) * ((h.ntime : ℤ) - 1) =
        ((ninter * (h.ntime - 1) : ℕ) : ℤ) := by
      have h1 : ((h.ntime : ℤ) - 1) = ((h.ntime - 1 : ℕ) : ℤ) := by omega
      rw [h1]
      exact_mod_cast rfl
    have hc2 : ninter * (h.ntime - 1) =
        (h.ntime - 1) * (ninter - 1) + (h.ntime - 1) := by
      have e : ninter - 1 + 1 = ninter := by omega
      calc ninter * (h.ntime - 1) = (h.ntime - 1) * ninter := Nat.mul_comm _ _
        _ = (h.ntime - 1) * (ninter - 1 + 1) := by rw [e]
        _ = (h.ntime - 1) * (ninter - 1) + (h.ntime - 1) := Nat.mul_succ _ _
    omega
  have halpha : ((ninter - 1 : ℕ) : ℚ) * (1 / ((ninter : ℚ) - 1)) = 1 := by
    have hc : ((ninter - 1 : ℕ) : ℚ) = (ninter : ℚ) - 1 := by
      rw [Nat.cast_sub (by omega)]
      norm_num
    have hne : ((ninter : ℚ) - 1) ≠ 0 := by
      have h2 : (2 : ℚ) ≤ (ninter : ℚ) := by exact_mod_cast hni
      intro hzero
      rw [sub_eq_zero] at hzero
      rw [hzero] at h2
      norm_num at h2
    rw [hc, mul_one_div, div_self hne]
  have hfields :
      (h.interpolate ninter 1).ekin =
        mdInterpSeries 1 (3 * h.natom * ((h.ntime - 1) * (ninter - 1) + 1)) ninter
          (1 / ((ninter : ℚ) - 1)) true h.ntime ((h.ntime - 1) * (ninter - 1) + 1) h.ekin ∧
      (h.interpolate ninter 1).temperature =
        mdInterpSeries 1 (3 * ((h.ntime - 1) * (ninter - 1) + 1)) ninter
          (1 / ((ninter : ℚ) - 1)) true h.ntime ((h.ntime - 1) * (ninter - 1) + 1) h.temperature ∧
      (h.interpolate ninter 1).pressure =
        mdInterpSeries 1 (9 * ((h.ntime - 1) * (ninter - 1) + 1)) ninter
          (1 / ((ninter : ℚ) - 1)) true h.ntime ((h.ntime - 1) * (ninter - 1) + 1) h.pressure ∧
      (h.interpolate ninter 1).entropy =
        mdInterpSeries 1 ((h.ntime - 1) * (ninter - 1) + 1) ninter
          (1 / ((ninter : ℚ) - 1)) true h.ntime ((h.ntime - 1) * (ninter - 1) + 1) h.entropy ∧
      (h.interpolate ninter 1).velocities =
        mdInterpSeries (3 * h.natom) (3 * h.natom * ((h.ntime - 1) * (ninter - 1) + 1)) ninter
          (1 / ((ninter : ℚ) - 1)) true h.ntime ((h.ntime - 1) * (ninter - 1) + 1) h.velocities := by
    simp only [HistDataMD.interpolate, histDataInterpolateBase, if_pos hrdP, hrdB, hNN]
    refine ⟨?_, ?_, ?_, ?_, ?_⟩ <;> first | rfl | trivial
  have hb3 : 1 ≤ 3 * h.natom := by omega
  have hNle : ∀ c : ℕ, 1 ≤ c →
      1 * ((h.ntime - 1) * (ninter - 1) + 1) ≤ c * ((h.ntime - 1) * (ninter - 1) + 1) :=
    fun c hc => Nat.mul_le_mul_right _ hc
  refine ⟨?_, ?_, ?_, ?_, ?_⟩
  · rw [hfields.1]
    have := mdInterpSeries_resample 1 (3 * h.natom * ((h.ntime - 1) * (ninter - 1) + 1))
      ninter (1 / ((ninter : ℚ) - 1)) h.ekin h.ntime ((h.ntime - 1) * (ninter - 1) + 1)
      le_rfl hni halpha hnt rfl (hNle _ (by omega)) (by omega) j 0 (by omega)
    simpa using this
  · rw [hfields.2.1]
    have := mdInterpSeries_resample 1 (3 * ((h.ntime - 1) * (ninter - 1) + 1))
      ninter (1 / ((ninter : ℚ) - 1)) h.temperature h.ntime ((h.ntime - 1) * (ninter - 1) + 1)
      le_rfl hni halpha hnt rfl (hNle _ (by omega)) (by omega) j 0 (by omega)
    simpa using this
  · rw [hfields.2.2.1]
    have := mdInterpSeries_resample 1 (9 * ((h.ntime - 1) * (ninter - 1) + 1))
      ninter (1 / ((ninter : ℚ) - 1)) h.pressure h.ntime ((h.ntime - 1) * (ninter - 1) + 1)
      le_rfl hni halpha hnt rfl (hNle _ (by omega)) (by omega) j 0 (by omega)
    simpa using this
  · rw [hfields.2.2.2.1]
    have := mdInterpSeries_resample 1 ((h.ntime - 1) * (ninter - 1) + 1)
      ninter (1 / ((ninter : ℚ) - 1)) h.entropy h.ntime ((h.ntime - 1) * (ninter - 1) + 1)
      le_rfl hni halpha hnt rfl (by omega) (by omega) j 0 (by omega)
    simpa using this
  · intro d hd
    rw [hfields.2.2.2.2]
    exact mdInterpSeries_resample (3 * h.natom)
      (3 * h.natom * ((h.ntime - 1) * (ninter - 1) + 1))
      ninter (1 / ((ninter : ℚ) - 1)) h.velocities h.ntime ((h.ntime - 1) * (ninter - 1) + 1)
      hb3 hni halpha hnt rfl le_rfl (by omega) j d hd

/-- C8 witness: the concrete two-frame store `c4Store`, `ninter = 2`,
original frame `1` re-sampled at interpolated index `1`. -/
theorem c8_interpolate_boundary_exact_witness :
    lget (c4Store.interpolate 2 1).entropy (1 * (2 - 1)) = lget c4Store.entropy 1 :=
  ((c8_interpolate_boundary_exact c4Store 2 (by norm_num [c4Store])
      (by norm_num [c4Store]) (by norm_num) rfl rfl rfl rfl rfl) 1
    (by norm_num [c4Store])).2.2.2.1
